import Mathlib

/-!
Verification of the task field-update and derived-recalculation engine of the
kpi-automation backend (src/backend/database.py and src/backend/ai_service.py),
as a shallow embedding in Lean 4.

Modelling conventions:
* SQLite REAL values are rationals (ℚ); Python `round(x, 1)` / `round(x)`
  use round-half-to-even, modelled exactly on ℚ by `rhe` / `round1`.
* Calendar dates are day numbers (ℕ) with `d % 7` as the weekday,
  0 = Monday … 5 = Saturday, 6 = Sunday, matching Python `date.weekday()`.
  Lexicographic min/max of ISO date strings (used by the source for
  earliest/latest subtask dates) is chronological, hence ℕ min/max here.
* The tasks table is a list of rows; `UPDATE ... WHERE id = ?` rewrites every
  row with that id, `UPDATE ... WHERE task = ?` every row with that name.
* `datetime.now()` is threaded explicitly as a `now : ℕ` day-number parameter.
* NULL / empty-string text and date fields are `Option` values with `none`
  for the falsy cases.
* Python `.lower()` and substring tests are modelled on the character list
  of the string (`lowerChars`), ASCII-equivalent to the source.
-/

namespace KPI

/-- Round-half-to-even, the semantics of Python `round(x)` (the tie goes to
the even integer, tested via `⌊q⌋ % 2`). -/
def rhe (q : ℚ) : ℤ :=
  let n := ⌊q⌋
  let f := q - (n : ℚ)
  if f < 1/2 then n else if 1/2 < f then n + 1 else if n % 2 = 0 then n else n + 1

/-- Python `round(x, 1)`: round to one decimal place, half to even. -/
def round1 (q : ℚ) : ℚ := (rhe (10 * q) : ℚ) / 10

/-- Python `int(x)` on a number: truncation toward zero. -/
def ratTrunc (q : ℚ) : ℚ :=
  ((Int.sign q.num * (q.num.natAbs / q.den : ℕ) : ℤ) : ℚ)

/-- A task row: the columns of the `tasks` table that the core logic touches.
`variance` is a generated column, see `Task.variance`. -/
structure Task where
  id : ℕ
  task : String
  resource : String
  work_hours : ℚ
  baseline_hours : ℚ
  hours_completed : ℚ
  hours_remaining : ℚ
  earned_value : ℚ
  dev_hours : ℚ
  dev_percent : ℚ
  test_hours : ℚ
  test_percent : ℚ
  review_hours : ℚ
  review_percent : ℚ
  percent_complete : ℚ
  current_phase : String
  task_type : String
  start_date : Option ℕ
  finish_date : Option ℕ
  parent_task : Option String
  deriving DecidableEq, Repr

attribute [ext] Task

/-- `variance REAL GENERATED ALWAYS AS (work_hours - baseline_hours) STORED`:
a derived column, never written directly. -/
def Task.variance (t : Task) : ℚ := t.work_hours - t.baseline_hours

/-- The `updates` dict passed to `database.update_task`, restricted to its
`allowed_fields` set (a field outside that set is dropped before the dict is
built, so it is simply absent here; `none` = field not supplied). -/
structure Updates where
  task : Option String := none
  resource : Option String := none
  work_hours : Option ℚ := none
  baseline_hours : Option ℚ := none
  percent_complete : Option ℚ := none
  hours_completed : Option ℚ := none
  hours_remaining : Option ℚ := none
  earned_value : Option ℚ := none
  dev_hours : Option ℚ := none
  dev_percent : Option ℚ := none
  test_hours : Option ℚ := none
  test_percent : Option ℚ := none
  review_hours : Option ℚ := none
  review_percent : Option ℚ := none
  current_phase : Option String := none
  task_type : Option String := none
  start_date : Option ℕ := none
  finish_date : Option ℕ := none
  parent_task : Option String := none
  deriving DecidableEq, Repr

/-- `if not filtered: return None` — true when no allowed field is present. -/
def Updates.isEmpty (u : Updates) : Bool :=
  u.task.isNone && u.resource.isNone && u.work_hours.isNone &&
  u.baseline_hours.isNone && u.percent_complete.isNone &&
  u.hours_completed.isNone && u.hours_remaining.isNone &&
  u.earned_value.isNone && u.dev_hours.isNone && u.dev_percent.isNone &&
  u.test_hours.isNone && u.test_percent.isNone && u.review_hours.isNone &&
  u.review_percent.isNone && u.current_phase.isNone && u.task_type.isNone &&
  u.start_date.isNone && u.finish_date.isNone && u.parent_task.isNone

/-- One counted day of the `while days_added < work_days` loop of
`recalculate_finish_date`: advance day by day (`current += timedelta(days=1)`)
until the next weekday (`current.weekday() < 5`). Two consecutive days can
both fall on a weekend, three cannot, so at most three increments occur per
counted day. -/
def stepWeekday (d : ℕ) : ℕ :=
  if (d + 1) % 7 < 5 then d + 1
  else if (d + 2) % 7 < 5 then d + 2
  else d + 3

/-- Iterate the weekday walk `n` times: the loop counts exactly
`n = ⌈work_days⌉` weekdays before `days_added < work_days` turns false,
and exits with `current` on the last counted weekday. -/
def projectFinish (d : ℕ) : ℕ → ℕ
  | 0 => d
  | n + 1 => projectFinish (stepWeekday d) n

/-- `database.recalculate_finish_date` for a task whose `start_date` parses:
`work_days = max(remaining_hours / HOURS_PER_DAY, 0)` with
`HOURS_PER_DAY = 8`, then the weekend-skipping walk from `now`. -/
def recalcFinish (now : ℕ) (remaining : ℚ) : ℕ :=
  projectFinish now (Int.toNat ⌈max (remaining / 8) 0⌉)

/-- The row computed by `database.update_task` for the updated task: merge the
supplied fields, re-derive `hours_completed`, `hours_remaining`,
`earned_value` (always overwritten, rounded to 1 decimal), and recompute
`finish_date` when `percent_complete` or `work_hours` is among the updates,
no explicit `finish_date` was supplied, the un-rounded remaining hours are
positive and the *pre-update* task row has a start date. -/
def applyUpdates (now : ℕ) (t : Task) (u : Updates) : Task :=
  let wh := u.work_hours.getD t.work_hours
  let bl := u.baseline_hours.getD t.baseline_hours
  let pc := u.percent_complete.getD t.percent_complete
  let hrRaw := wh * (1 - pc / 100)
  let fin : Option ℕ :=
    if (u.percent_complete.isSome || u.work_hours.isSome) && u.finish_date.isNone then
      if 0 < hrRaw ∧ t.start_date.isSome then some (recalcFinish now hrRaw)
      else t.finish_date
    else match u.finish_date with
      | some f => some f
      | none => t.finish_date
  { t with
    task := u.task.getD t.task
    resource := u.resource.getD t.resource
    work_hours := wh
    baseline_hours := bl
    percent_complete := pc
    hours_completed := round1 (wh * (pc / 100))
    hours_remaining := round1 hrRaw
    earned_value := round1 (bl * (pc / 100))
    dev_hours := u.dev_hours.getD t.dev_hours
    dev_percent := u.dev_percent.getD t.dev_percent
    test_hours := u.test_hours.getD t.test_hours
    test_percent := u.test_percent.getD t.test_percent
    review_hours := u.review_hours.getD t.review_hours
    review_percent := u.review_percent.getD t.review_percent
    current_phase := u.current_phase.getD t.current_phase
    task_type := u.task_type.getD t.task_type
    start_date := match u.start_date with
      | some d => some d
      | none => t.start_date
    finish_date := fin
    parent_task := match u.parent_task with
      | some p => some p
      | none => t.parent_task }

/-- The tasks table: an ordered list of rows. -/
abbrev Store := List Task

/-- `SELECT * FROM tasks WHERE id = ?` (first matching row). -/
def getTask (s : Store) (i : ℕ) : Option Task :=
  List.find? (fun t => t.id == i) s

/-- `UPDATE tasks SET ... WHERE id = ?`: rewrite every row with that id. -/
def writeTask (s : Store) (i : ℕ) (t' : Task) : Store :=
  List.map (fun x => if x.id == i then t' else x) s

/-- The subtask rows of a parent name:
`SELECT * FROM tasks WHERE parent_task = ?`. -/
def subtasksOf (s : Store) (p : String) : List Task :=
  List.filter (fun t => t.parent_task == some p) s

/-- Earliest of a list of day numbers (`min(start_dates)` in the source;
lexicographic on ISO strings = chronological). -/
def earliestDate : List ℕ → Option ℕ
  | [] => none
  | d :: ds => some (ds.foldl Nat.min d)

/-- Latest of a list of day numbers (`max(finish_dates)`). -/
def latestDate : List ℕ → Option ℕ
  | [] => none
  | d :: ds => some (ds.foldl Nat.max d)

/-- The overall percent written by `update_parent_task_totals`: work_hours-
weighted average of the subtask percentages, rounded to the nearest integer,
0 when the subtasks' total work_hours is not positive. -/
def parentPct (subs : List Task) : ℚ :=
  if 0 < (subs.map Task.work_hours).sum then
    ((rhe ((subs.map (fun t => t.percent_complete * t.work_hours)).sum
      / (subs.map Task.work_hours).sum) : ℤ) : ℚ)
  else 0

/-- The parent row rewrite performed by `update_parent_task_totals`: field
sums over the subtasks rounded to 1 decimal, the weighted percent, and the
earliest start / latest finish dates (`COALESCE(?, start_date)`: a NULL
aggregate keeps the row's own value). -/
def aggRowOf (subs : List Task) (x : Task) : Task :=
  { x with
    work_hours := round1 ((subs.map Task.work_hours).sum)
    baseline_hours := round1 ((subs.map Task.baseline_hours).sum)
    hours_completed := round1 ((subs.map Task.hours_completed).sum)
    hours_remaining := round1 ((subs.map Task.hours_remaining).sum)
    earned_value := round1 ((subs.map Task.earned_value).sum)
    dev_hours := round1 ((subs.map Task.dev_hours).sum)
    test_hours := round1 ((subs.map Task.test_hours).sum)
    review_hours := round1 ((subs.map Task.review_hours).sum)
    percent_complete := parentPct subs
    start_date := match earliestDate (subs.filterMap Task.start_date) with
      | some e => some e
      | none => x.start_date
    finish_date := match latestDate (subs.filterMap Task.finish_date) with
      | some f => some f
      | none => x.finish_date }

/-- `database.update_parent_task_totals`: recompute the aggregate fields from
all subtasks of the given parent name and write them into every row whose
`task` equals that name.  No subtasks: the store is untouched. -/
def updateParentTotals (s : Store) (p : String) : Store :=
  let subs := subtasksOf s p
  if subs.isEmpty then s
  else List.map (fun x => if x.task == p then aggRowOf subs x else x) s

/-- `database.update_task`: drop to the allowed fields (`Updates` already
is that set), bail out when nothing remains or the task does not exist,
write the recomputed row, then — when the updated row has a (truthy)
`parent_task` — synchronously re-aggregate the parent by name. -/
def update_task (now : ℕ) (s : Store) (i : ℕ) (u : Updates) : Store :=
  if u.isEmpty then s else
  match getTask s i with
  | none => s
  | some t =>
    let t' := applyUpdates now t u
    let s' := writeTask s i t'
    match t'.parent_task with
    | some p => updateParentTotals s' p
    | none => s'

/-- The numeric fields of `TASK_SCHEMA` (the value space the action handlers
and the claims exercise; `variance`, `earned_value` and `id` are the
non-editable entries among them).  The source's `cr_stage` entry refers to
`CR_STAGE_MAP`, which is not defined in the backend sources, and no claim
touches it, so it is left out. -/
inductive FieldName where
  | id
  | work_hours
  | baseline_hours
  | percent_complete
  | hours_completed
  | hours_remaining
  | earned_value
  | variance
  | dev_hours
  | dev_percent
  | test_hours
  | test_percent
  | review_hours
  | review_percent
  deriving DecidableEq, Repr

/-- One proposed change entry `{"id": ..., "field": ..., "value": ...}`. -/
structure Change where
  id : ℕ
  field : FieldName
  value : ℚ
  deriving DecidableEq, Repr

/-- Transcribe one change entry into the `updates` dict for `update_task`.
`variance` and `id` are not in `allowed_fields`, so they set nothing. -/
def setChange (u : Updates) (c : Change) : Updates :=
  match c.field with
  | .id => u
  | .work_hours => { u with work_hours := some c.value }
  | .baseline_hours => { u with baseline_hours := some c.value }
  | .percent_complete => { u with percent_complete := some c.value }
  | .hours_completed => { u with hours_completed := some c.value }
  | .hours_remaining => { u with hours_remaining := some c.value }
  | .earned_value => { u with earned_value := some c.value }
  | .variance => u
  | .dev_hours => { u with dev_hours := some c.value }
  | .dev_percent => { u with dev_percent := some c.value }
  | .test_hours => { u with test_hours := some c.value }
  | .test_percent => { u with test_percent := some c.value }
  | .review_hours => { u with review_hours := some c.value }
  | .review_percent => { u with review_percent := some c.value }

/-- `ai_service.validate_change` on a numeric-field change: non-editable
fields error out immediately; `percent_complete` is coerced with `int()`
(truncation) and range-checked against min 0 / max 100 on the coerced
value; the task must exist; `work_hours` must not be negative.  Warnings
are non-blocking and do not affect validity, so they are not collected. -/
def validateErrors (s : Store) (c : Change) : List String :=
  if c.field == .variance || c.field == .earned_value || c.field == .id then
    ["not editable"]
  else
    let coerced := if c.field == .percent_complete then ratTrunc c.value else c.value
    let e1 := if c.field == .percent_complete ∧ coerced < 0 then
      ["percent_complete must be >= 0"] else []
    let e2 := if c.field == .percent_complete ∧ 100 < coerced then
      ["percent_complete must be <= 100"] else []
    match getTask s c.id with
    | none => e1 ++ e2 ++ ["Task not found"]
    | some _ =>
      let e3 := if c.field == .work_hours ∧ c.value < 0 then
        ["work_hours cannot be negative"] else []
      e1 ++ e2 ++ e3

/-- Ids in first-occurrence order (Python dict insertion order when the
changes are grouped per task). -/
def firstDedup : List ℕ → List ℕ
  | [] => []
  | x :: xs => x :: firstDedup (List.filter (fun y => y != x) xs)
  termination_by l => l.length
  decreasing_by
    simp only [List.length_cons]
    exact Nat.lt_succ_of_le (List.length_filter_le _ _)

/-- The grouped update dict for one task id: its changes folded in list
order (a later duplicate field overwrites an earlier one). -/
def taskUpdatesFor (cs : List Change) (i : ℕ) : Updates :=
  (cs.filter (fun c => c.id == i)).foldl setChange {}

/-- `ai_service.apply_changes`: silently drop changes to the auto-calculated
fields `variance` and `earned_value`, validate everything that remains, and
only if every remaining change is valid apply them, grouped into one
`update_task` call per task id; otherwise return the collected error
strings with the store untouched. -/
def apply_changes (now : ℕ) (s : Store) (cs : List Change) :
    Except (List String) Store :=
  let fcs := cs.filter (fun c => !(c.field == .variance || c.field == .earned_value))
  let errs := (fcs.map (validateErrors s)).flatten
  if errs.isEmpty then
    .ok ((firstDedup (fcs.map Change.id)).foldl
      (fun st i => update_task now st i (taskUpdatesFor fcs i)) s)
  else .error errs

/-- `ai_service.handle_log_hours`: record `hours` of completed work.  When
the new completed total exceeds the allocated hours (or none were allocated)
the emitted changes first raise `work_hours` to the (rounded) total; the new
`percent_complete` is `min(round(100 * new_completed / work_hours), 100)`
against the (unrounded) raised local value.  A named phase with a positive
hours allocation also gets its own percent recomputed by the same formula
scoped to the phase. -/
def handle_log_hours (s : Store) (tid : ℕ) (hours : ℚ) (phase : Option String) :
    Option (List Change) :=
  match getTask s tid with
  | none => none
  | some t =>
    let wh0 := t.work_hours
    let nc := t.hours_completed + hours
    let raised := (wh0 < nc ∧ 0 < wh0) ∨ wh0 ≤ 0
    let whv := if raised then nc else wh0
    let whChanges : List Change := if raised then [⟨tid, .work_hours, round1 nc⟩] else []
    let pc : ℚ := if 0 < whv then min ((rhe ((nc / whv) * 100) : ℤ) : ℚ) 100 else 0
    let base := whChanges ++ [⟨tid, .percent_complete, pc⟩]
    match phase with
    | none => some base
    | some ph =>
      let pdata : Option (ℚ × ℚ × FieldName) :=
        match ph with
        | "development" => some (t.dev_hours, t.dev_percent, .dev_percent)
        | "testing" => some (t.test_hours, t.test_percent, .test_percent)
        | "review" => some (t.review_hours, t.review_percent, .review_percent)
        | _ => none
      match pdata with
      | none => some base
      | some (ptot, oldPct, pf) =>
        if 0 < ptot then
          let npc := ptot * (oldPct / 100) + hours
          some (base ++ [⟨tid, pf, min ((rhe ((npc / ptot) * 100) : ℤ) : ℚ) 100⟩])
        else some base

/-- A candidate option inside a pending action. -/
structure Opt where
  option : ℕ
  label : String
  description : String
  changes : List Change
  deriving DecidableEq, Repr

inductive PAStatus where
  | pending
  | executed
  | cancelled
  deriving DecidableEq, Repr

/-- A `pending_actions` row. -/
structure PendingAction where
  id : ℕ
  task_id : ℕ
  action_type : String
  original_query : String
  options : List Opt
  expires_at : ℕ
  status : PAStatus
  deriving DecidableEq, Repr

abbrev PStore := List PendingAction

/-- `database.create_pending_action`: insert a row in `pending` status,
`expires_at` five minutes ahead; return the fresh autoincrement id. -/
def create_pending_action (ps : PStore) (now tid : ℕ) (atype query : String)
    (opts : List Opt) : ℕ × PStore :=
  let newId := 1 + List.foldl (fun m a => Nat.max m a.id) 0 ps
  (newId, ps ++ [{ id := newId, task_id := tid, action_type := atype,
                   original_query := query, options := opts,
                   expires_at := now + 5, status := .pending }])

/-- `ai_service.create_phase_selection_options`: the five candidate options
offered when the phase was not specified.  The scale-all option (ordinal 4)
gets concrete scaled changes only when the current total is positive.
(Display strings keep the source's wording; concrete numbers inside the
descriptions are rendered through `toString` instead of Python float
formatting, which no logic depends on — the cancel detection only looks
for the word "cancel".) -/
def create_phase_selection_options (t : Task) (hd : ℚ) : List Opt :=
  let ct := t.work_hours
  let nt := ct + hd
  let cd := t.dev_hours
  let cte := t.test_hours
  let cr := t.review_hours
  let o4 : Opt :=
    if 0 < ct then
      let sf := nt / ct
      { option := 4, label := "Scale all phases proportionally",
        description := "Dev: " ++ toString (round1 (cd * sf)) ++ "h | Test: "
          ++ toString (round1 (cte * sf)) ++ "h | Review: "
          ++ toString (round1 (cr * sf)) ++ "h",
        changes := [⟨t.id, .dev_hours, round1 (cd * sf)⟩,
                    ⟨t.id, .test_hours, round1 (cte * sf)⟩,
                    ⟨t.id, .review_hours, round1 (cr * sf)⟩,
                    ⟨t.id, .work_hours, nt⟩] }
    else
      { option := 4, label := "Scale all phases proportionally",
        description := "Distribute +" ++ toString hd
          ++ "h across Dev/Test/Review based on current ratios",
        changes := [] }
  [{ option := 1, label := "Add to Development (+" ++ toString hd ++ "h)",
     description := "Dev: " ++ toString cd ++ "h -> " ++ toString (cd + hd)
       ++ "h | Total: " ++ toString ct ++ "h -> " ++ toString nt ++ "h",
     changes := [⟨t.id, .dev_hours, cd + hd⟩, ⟨t.id, .work_hours, nt⟩] },
   { option := 2, label := "Add to Testing (+" ++ toString hd ++ "h)",
     description := "Test: " ++ toString cte ++ "h -> " ++ toString (cte + hd)
       ++ "h | Total: " ++ toString ct ++ "h -> " ++ toString nt ++ "h",
     changes := [⟨t.id, .test_hours, cte + hd⟩, ⟨t.id, .work_hours, nt⟩] },
   { option := 3, label := "Add to Review (+" ++ toString hd ++ "h)",
     description := "Review: " ++ toString cr ++ "h -> " ++ toString (cr + hd)
       ++ "h | Total: " ++ toString ct ++ "h -> " ++ toString nt ++ "h",
     changes := [⟨t.id, .review_hours, cr + hd⟩, ⟨t.id, .work_hours, nt⟩] },
   o4,
   { option := 5, label := "Cancel", description := "No changes", changes := [] }]

/-- Outcome classification of `ai_service.handle_add_hours`. -/
inductive AddOutcome where
  | notFound
  | direct (cs : List Change)
  | clarify (opts : List Opt)
  deriving DecidableEq, Repr

/-- `ai_service.handle_add_hours`: a scope increase.  Without a named phase
or mode: if no phase has positive hours the delta goes straight onto
`work_hours`; otherwise a pending action with the five phase-selection
options is created and nothing is applied.  With a phase or mode, the
corresponding changes (plus the new `work_hours`) are returned. -/
def handle_add_hours (now : ℕ) (s : Store) (ps : PStore) (tid : ℕ) (hours : ℚ)
    (phase mode : Option String) : AddOutcome × Store × PStore :=
  match getTask s tid with
  | none => (.notFound, s, ps)
  | some t =>
    let hasPhases := 0 < t.dev_hours ∨ 0 < t.test_hours ∨ 0 < t.review_hours
    if phase.isNone && mode.isNone then
      if ¬hasPhases then
        (.direct [⟨tid, .work_hours, round1 (t.work_hours + hours)⟩], s, ps)
      else
        let opts := create_phase_selection_options t hours
        let created := create_pending_action ps now tid "phase_selection"
          ("Add " ++ toString hours ++ "h") opts
        (.clarify opts, s, created.2)
    else
      let ct := t.work_hours
      let nt := ct + hours
      let cs1 : List Change :=
        if mode == some "scale_all" then
          if 0 < ct then
            let sf := nt / ct
            [⟨tid, .dev_hours, round1 (t.dev_hours * sf)⟩,
             ⟨tid, .test_hours, round1 (t.test_hours * sf)⟩,
             ⟨tid, .review_hours, round1 (t.review_hours * sf)⟩]
          else []
        else
          match phase with
          | some "development" => [⟨tid, .dev_hours, round1 (t.dev_hours + hours)⟩]
          | some "testing" => [⟨tid, .test_hours, round1 (t.test_hours + hours)⟩]
          | some "review" => [⟨tid, .review_hours, round1 (t.review_hours + hours)⟩]
          | _ => []
      (.direct (cs1 ++ [⟨tid, .work_hours, round1 nt⟩]), s, ps)

/-- `SELECT * FROM pending_actions WHERE id = ? AND status = 'pending'` —
note: `expires_at` is stored but never consulted. -/
def get_pending_action (ps : PStore) (aid : ℕ) : Option PendingAction :=
  List.find? (fun a => a.id == aid && a.status == .pending) ps

def setPendingStatus (ps : PStore) (aid : ℕ) (st : PAStatus) : PStore :=
  List.map (fun a => if a.id == aid then { a with status := st } else a) ps

/-- Python `.lower()` of an ASCII string, as a character list. -/
def lowerChars (s : String) : List Char := s.data.map Char.toLower

def cancelChars : List Char := "cancel".data

/-- Python `pat in l` on character lists. -/
def hasSublist (pat : List Char) : List Char → Bool
  | [] => pat.isEmpty
  | c :: rest => pat.isPrefixOf (c :: rest) || hasSublist pat rest

/-- The source's cancel-option detection: the label (lowercased) equals or
contains "cancel", or the change list is empty and the description mentions
"cancel" (Python `a or b or c and d` groups as `a or b or (c and d)`). -/
def isCancelOpt (o : Opt) : Bool :=
  (lowerChars o.label == cancelChars) ||
  hasSublist cancelChars (lowerChars o.label) ||
  (o.changes.isEmpty && hasSublist cancelChars (lowerChars o.description))

inductive ExecResult where
  | notFound
  | invalidOption
  | cancelledOk
  | executedOk
  deriving DecidableEq, Repr

/-- `database.execute_pending_action`: look the action up (pending status
only — a missing, already-resolved, or expired-but-pending row are not told
apart beyond the status filter), find the chosen ordinal, detect the cancel
option; a cancel marks the action cancelled with no task-store call, any
other option applies its change entries one `update_task` call each, in
list order, then marks the action executed. -/
def execute_pending_action (now : ℕ) (s : Store) (ps : PStore)
    (aid chosen : ℕ) : ExecResult × Store × PStore :=
  match get_pending_action ps aid with
  | none => (.notFound, s, ps)
  | some a =>
    match a.options.find? (fun o => o.option == chosen) with
    | none => (.invalidOption, s, ps)
    | some o =>
      if isCancelOpt o then
        (.cancelledOk, s, setPendingStatus ps aid .cancelled)
      else
        let s' := o.changes.foldl
          (fun st c => update_task now st c.id (setChange {} c)) s
        (.executedOk, s', setPendingStatus ps aid .executed)

/-- A task row with all-default fields, for concrete instances. -/
def T0 : Task :=
  { id := 0, task := "", resource := "", work_hours := 0, baseline_hours := 0,
    hours_completed := 0, hours_remaining := 0, earned_value := 0,
    dev_hours := 0, dev_percent := 0, test_hours := 0, test_percent := 0,
    review_hours := 0, review_percent := 0, percent_complete := 0,
    current_phase := "development", task_type := "Fixed Work",
    start_date := none, finish_date := none, parent_task := none }

/-- Two subtasks of parent "P" with work_hours 10 / 20 and percent 50 / 25,
and the parent row itself. -/
def c8Store : Store :=
  [{ T0 with
      id := 1, task := "A", work_hours := 10, percent_complete := 50,
      parent_task := some "P" },
   { T0 with
      id := 2, task := "B", work_hours := 20, percent_complete := 25,
      parent_task := some "P" },
   { T0 with id := 3, task := "P" }]

/-- The parent row of `c8Store` after aggregation. -/
def c8Parent : Task :=
  { T0 with id := 3, task := "P", work_hours := 30, percent_complete := 33 }

/-- Witness updates for C1: set work_hours = 0.08 and percent = 50. -/
def c1U : Updates := { work_hours := some (2/25), percent_complete := some 50 }

/-- Store for the C1 counterexample: subtask B already carries the stored
state `update_task` produces for work_hours = 0.08, percent = 50 (completed
and remaining both round to 0.0); subtask A is about to be updated to the
same values; P is the parent row. -/
def c1Store : Store :=
  [{ T0 with id := 1, task := "A", parent_task := some "P" },
   { T0 with
      id := 2, task := "B", work_hours := 2/25, percent_complete := 50,
      hours_completed := 0, hours_remaining := 0, parent_task := some "P" },
   { T0 with id := 3, task := "P" }]

/-- Updates for the C2 counterexample: re-assert percent_complete = 100 on
subtask B (a no-op on B itself) to trigger the parent recomputation. -/
def c2U : Updates := { percent_complete := some 100 }

/-- Store for the C2 counterexample: subtask A (baseline 10, 0% complete,
earned 0), subtask B (baseline 0, 100% complete, earned 0), parent P. -/
def c2Store : Store :=
  [{ T0 with
      id := 1, task := "A", work_hours := 10, baseline_hours := 10,
      percent_complete := 0, hours_remaining := 10, parent_task := some "P" },
   { T0 with
      id := 2, task := "B", work_hours := 10, baseline_hours := 0,
      percent_complete := 100, hours_completed := 10, parent_task := some "P" },
   { T0 with id := 3, task := "P" }]

/-- A store with one all-zero subtask of "P" and the parent row, for the C2
witness. -/
def c2WStore : Store :=
  [{ T0 with id := 1, task := "A", parent_task := some "P" },
   { T0 with id := 2, task := "P" }]

/-- The parent row of `c2WStore` after aggregation. -/
def c2WParent : Task := { T0 with id := 2, task := "P" }

/-- Updates for the C10 counterexample: percent_complete := 50 only. -/
def c10U : Updates := { percent_complete := some 50 }

/-- C10 counterexample store: a task with 10 work hours, no start date, and
a stale finish date of day 100. -/
def c10Store : Store :=
  [{ T0 with id := 1, task := "A", work_hours := 10, finish_date := some 100 }]

/-- Witness task for C10: has a start date. -/
def c10WTask : Task := { T0 with id := 1, work_hours := 10, start_date := some 0 }

/-! ### C3: log_hours -/

/-- The `chat()` path for a `log_hours` action: build the change entries with
`handle_log_hours`, then run them through `apply_changes` (which validates and
applies); on a missing task or a validation error the store is unchanged. -/
def log_hours_pipeline (now : ℕ) (s : Store) (tid : ℕ) (hours : ℚ)
    (phase : Option String) : Store :=
  match handle_log_hours s tid hours phase with
  | none => s
  | some cs =>
    match apply_changes now s cs with
    | .ok s' => s'
    | .error _ => s

/-- Store for the C3 counterexample: one task with 30 allocated hours,
nothing completed. -/
def c3Store : Store :=
  [{ T0 with id := 1, task := "A", work_hours := 30, hours_remaining := 30 }]

/-- Store for the C3 witness: one task with work_hours = 0. -/
def c3WStore : Store := [{ T0 with id := 1, task := "A" }]

/-- Store for the C4 witness, zero-phase side: one task with 7 work hours
and no phase hours. -/
def c4ZStore : Store := [{ T0 with id := 1, task := "A", work_hours := 7 }]

/-- Store for the C4 witness, phased side: one task with 5 development
hours. -/
def c4PStore : Store :=
  [{ T0 with id := 1, task := "A", work_hours := 10, dev_hours := 5 }]

/-- A pending action whose `expires_at` (day 10) is long past at
resolution time (day 9999), with a single cancel option. -/
def c5PStore : PStore :=
  [{ id := 1, task_id := 1, action_type := "phase_selection",
     original_query := "q", options := [⟨1, "Cancel", "No changes", []⟩],
     expires_at := 10, status := .pending }]

/-- The single task of the C6 store. -/
def c6Task : Task := { T0 with id := 1, task := "A", work_hours := 5 }

/-- Store for the C6 counterexample and witness: one plain task. -/
def c6Store : Store := [c6Task]

/-- Task for the C9 counterexample: no start date stored, an old finish date. -/
def c9Task : Task :=
  { T0 with
    id := 1
    task := "A"
    work_hours := 10
    finish_date := some 100 }

def c9Store : Store := [c9Task]

/-- An update dict that re-sends work_hours and introduces a start_date. -/
def c9U : Updates := { work_hours := some 10, start_date := some 3 }

/-- Witness task for the amended C9: it has a start date already. -/
def c9WTask : Task :=
  { T0 with
    id := 1
    task := "W"
    work_hours := 10
    start_date := some 0 }

def c9WStore : Store := [c9WTask]

def c9WU : Updates := { percent_complete := some 50 }

theorem abs_rhe_sub_le (q : ℚ) : |(rhe q : ℚ) - q| ≤ 1/2 := by
  unfold rhe
  have hfl : (⌊q⌋ : ℚ) ≤ q := Int.floor_le q
  have hfu : q < (⌊q⌋ : ℚ) + 1 := Int.lt_floor_add_one q
  by_cases h1 : q - (⌊q⌋ : ℚ) < 1/2
  · simp only [if_pos h1]
    rw [abs_sub_comm, abs_of_nonneg (by linarith)]
    linarith
  · simp only [if_neg h1]
    by_cases h2 : (1:ℚ)/2 < q - (⌊q⌋ : ℚ)
    · simp only [if_pos h2]
      push_cast
      rw [abs_of_nonneg (by linarith)]
      linarith
    · simp only [if_neg h2]
      have heq : q - (⌊q⌋ : ℚ) = 1/2 := le_antisymm (not_lt.mp h2) (not_lt.mp h1)
      by_cases h3 : ⌊q⌋ % 2 = 0
      · simp only [if_pos h3]
        rw [abs_sub_comm, abs_of_nonneg (by linarith)]
        linarith
      · simp only [if_neg h3]
        push_cast
        rw [abs_of_nonneg (by linarith)]
        linarith

theorem abs_round1_sub_le (q : ℚ) : |round1 q - q| ≤ 1/20 := by
  have h := abs_rhe_sub_le (10 * q)
  unfold round1
  have heq : (rhe (10*q) : ℚ) / 10 - q = ((rhe (10*q) : ℚ) - 10 * q) / 10 := by ring
  rw [heq, abs_div]
  rw [show |(10:ℚ)| = 10 by norm_num]
  linarith

theorem rhe_intCast (n : ℤ) : rhe (n : ℚ) = n := by
  unfold rhe
  simp

theorem rhe_nonneg {q : ℚ} (h : 0 ≤ q) : 0 ≤ rhe q := by
  have h0 : (0:ℤ) ≤ ⌊q⌋ := Int.floor_nonneg.mpr h
  unfold rhe
  dsimp only
  split
  · exact h0
  · split
    · omega
    · split
      · exact h0
      · omega

theorem round1_idem (q : ℚ) : round1 (round1 q) = round1 q := by
  unfold round1
  rw [show (10:ℚ) * ((rhe (10*q) : ℚ)/10) = ((rhe (10*q) : ℤ) : ℚ) by ring]
  rw [rhe_intCast]

example : recalcFinish 0 40 = 7 := by norm_num [recalcFinish, projectFinish, stepWeekday]

example : round1 (4/100) = 0 := by norm_num [round1, rhe]

example : round1 (16/100) = 2/10 := by norm_num [round1, rhe]

/-! ### Store lemmas -/

theorem getTask_map {f : Task → Task} (hf : ∀ x, (f x).id = x.id)
    (s : Store) (i : ℕ) :
    getTask (List.map f s) i = Option.map f (getTask s i) := by
  induction s with
  | nil => rfl
  | cons a as ih =>
    unfold getTask at ih ⊢
    simp only [List.map_cons]
    cases h : (a.id == i) with
    | true =>
      rw [List.find?_cons_of_pos, List.find?_cons_of_pos]
      · simp
      · exact h
      · rw [hf]; exact h
    | false =>
      rw [List.find?_cons_of_neg, List.find?_cons_of_neg]
      · exact ih
      · simp only [h, Bool.false_eq_true, not_false_eq_true]
      · rw [hf]; simp only [h, Bool.false_eq_true, not_false_eq_true]

theorem getTask_id {s : Store} {i : ℕ} {a : Task}
    (ha : getTask s i = some a) : a.id = i := by
  have := List.find?_some ha
  simpa using this

theorem aggRowOf_id (subs : List Task) (x : Task) : (aggRowOf subs x).id = x.id := rfl

theorem getTask_writeTask_of_found {s : Store} {i : ℕ} {t' a : Task}
    (ha : getTask s i = some a) (ht : t'.id = i) :
    getTask (writeTask s i t') i = some t' := by
  have hfa : a.id = i := getTask_id ha
  have hf : ∀ x : Task, (if x.id == i then t' else x).id = x.id := by
    intro x
    by_cases h : x.id = i <;> simp [h, ht]
  unfold writeTask
  rw [getTask_map hf, ha]
  simp [hfa]

theorem getTask_updateParentTotals_of_ne {s : Store} {p : String} {i : ℕ}
    {x : Task} (hx : getTask s i = some x) (hne : x.task ≠ p) :
    getTask (updateParentTotals s p) i = some x := by
  unfold updateParentTotals
  dsimp only
  split
  · exact hx
  · have hf2 : ∀ y : Task,
        (if y.task == p then aggRowOf (subtasksOf s p) y else y).id = y.id := by
      intro y
      by_cases h : y.task = p <;> simp [h, aggRowOf_id]
    rw [getTask_map hf2, hx]
    simp [hne]

/-! ### C7: finish-date projection -/

theorem stepWeekday_of_lt {d : ℕ} (h : d % 7 < 4) : stepWeekday d = d + 1 := by
  unfold stepWeekday
  rw [if_pos (by omega)]

theorem stepWeekday_of_eq4 {d : ℕ} (h : d % 7 = 4) : stepWeekday d = d + 3 := by
  unfold stepWeekday
  rw [if_neg (by omega), if_neg (by omega)]

/-- C7: the finish-date projection starts from the current date and walks
forward one day at a time, counting only weekdays (`recalcFinish` /
`projectFinish` transcribe the source loop), until the counted days cover
`remaining_hours` at 8 hours per counted day; projecting 40 remaining hours
from a Monday (`d % 7 = 0`) lands exactly 5 business days later — the
following Monday, 7 calendar days ahead, skipping the weekend. -/
theorem c7_finish_projection (d : ℕ) (hmon : d % 7 = 0) :
    recalcFinish d 40 = d + 7 ∧ (d + 7) % 7 = 0 := by
  refine ⟨?_, by omega⟩
  have h5 : Int.toNat ⌈max ((40:ℚ) / 8) 0⌉ = 5 := by
    norm_num
    decide
  unfold recalcFinish
  rw [h5]
  have e1 : stepWeekday d = d + 1 := stepWeekday_of_lt (by omega)
  have e2 : stepWeekday (d + 1) = d + 2 := by
    rw [stepWeekday_of_lt (by omega)]
  have e3 : stepWeekday (d + 2) = d + 3 := by
    rw [stepWeekday_of_lt (by omega)]
  have e4 : stepWeekday (d + 3) = d + 4 := by
    rw [stepWeekday_of_lt (by omega)]
  have e5 : stepWeekday (d + 4) = d + 7 := by
    rw [stepWeekday_of_eq4 (by omega)]
  have hpf : ∀ e : ℕ, projectFinish e 5 =
      stepWeekday (stepWeekday (stepWeekday (stepWeekday (stepWeekday e)))) :=
    fun e => rfl
  rw [hpf, e1, e2, e3, e4, e5]

/-- Witness for C7 at the concrete Monday `d = 0`. -/
theorem c7_finish_projection_witness : recalcFinish 0 40 = 0 + 7 ∧ (0 + 7) % 7 = 0 :=
  c7_finish_projection 0 (by norm_num)

/-! ### C8: parent aggregation percent -/

/-- C8: `update_parent_task_totals` sets the parent row's percent_complete to
the work_hours-weighted average of its subtasks' percentages, rounded to the
nearest integer, and to 0 when the subtasks' total work_hours is 0. -/
theorem c8_parent_weighted_percent (s : Store) (p : String) (i : ℕ) (x : Task)
    (hx : getTask (updateParentTotals s p) i = some x) (hxp : x.task = p)
    (hne : subtasksOf s p ≠ []) :
    x.percent_complete =
      (if 0 < ((subtasksOf s p).map Task.work_hours).sum then
        ((rhe (((subtasksOf s p).map (fun t => t.percent_complete * t.work_hours)).sum
          / ((subtasksOf s p).map Task.work_hours).sum) : ℤ) : ℚ)
      else 0) := by
  unfold updateParentTotals at hx
  dsimp only at hx
  rw [if_neg (by simpa using hne)] at hx
  unfold getTask at hx
  have hmem : x ∈ List.map
      (fun y => if y.task == p then aggRowOf (subtasksOf s p) y else y) s :=
    List.mem_of_find?_eq_some hx
  obtain ⟨y, hy, hfy⟩ := List.mem_map.mp hmem
  by_cases hyp : y.task = p
  · rw [if_pos (by simpa using hyp)] at hfy
    rw [← hfy]
    rfl
  · rw [if_neg (by simpa using hyp)] at hfy
    exact absurd (hfy ▸ hxp) hyp

/-- Witness for C8: on `c8Store`, the aggregated parent percent is
`round((50*10 + 25*20)/30) = 33`. -/
theorem c8_parent_weighted_percent_witness :
    (getTask (updateParentTotals c8Store "P") 3).map Task.percent_complete = some 33 := by
  have hx : getTask (updateParentTotals c8Store "P") 3 = some c8Parent := by
    norm_num [c8Store, c8Parent, T0, getTask, updateParentTotals, subtasksOf, aggRowOf,
      parentPct, earliestDate, latestDate, rhe, round1]
    simp
  have hne : subtasksOf c8Store "P" ≠ [] := by
    norm_num [c8Store, T0, subtasksOf]
    simp
  have h33 := c8_parent_weighted_percent c8Store "P" 3 c8Parent hx rfl hne
  have hp : Task.percent_complete c8Parent = 33 := by
    rw [h33]
    norm_num [c8Store, T0, subtasksOf, rhe]
  rw [hx]
  simp [hp]

/-! ### C1: hours_completed + hours_remaining == work_hours (±0.1) -/

theorem abs_map_sum_le (f : Task → ℚ) (c : ℚ) :
    ∀ l : List Task, (∀ x ∈ l, |f x| ≤ c) → |(l.map f).sum| ≤ l.length * c := by
  intro l
  induction l with
  | nil => intro _; simp
  | cons a l ih =>
    intro h
    simp only [List.map_cons, List.sum_cons, List.length_cons]
    have ha := h a (List.mem_cons_self a l)
    have hl := ih (fun x hx => h x (List.mem_cons_of_mem _ hx))
    calc |f a + (l.map f).sum| ≤ |f a| + |(l.map f).sum| := abs_add _ _
    _ ≤ c + l.length * c := by linarith
    _ = (l.length + 1 : ℕ) * c := by push_cast; ring

theorem sum_hcr_split (l : List Task) :
    (l.map Task.hours_completed).sum + (l.map Task.hours_remaining).sum
      - (l.map Task.work_hours).sum
    = (l.map (fun x => x.hours_completed + x.hours_remaining - x.work_hours)).sum := by
  induction l with
  | nil => simp
  | cons a l ih =>
    simp only [List.map_cons, List.sum_cons]
    linarith

/-- C1, as amended.  (1) For the task written by `update_task` itself
(with any mix of editable fields, including explicitly supplied
hours_completed / hours_remaining, which are always overwritten by the
re-derivation), `hours_completed + hours_remaining` is within 0.1 of
`work_hours`.  (2) For a parent row recomputed from its `n` subtasks the
bound that holds is `n * 0.1 + 0.15` (per-subtask discrepancies plus the
rounding of the three sums); the flat 0.1 is false for parents, see the
counterexample. -/
theorem c1_amended :
    (∀ (now : ℕ) (t : Task) (u : Updates),
      |(applyUpdates now t u).hours_completed + (applyUpdates now t u).hours_remaining
        - (applyUpdates now t u).work_hours| ≤ 1/10)
    ∧ (∀ (subs : List Task) (x : Task),
        (∀ y ∈ subs, |y.hours_completed + y.hours_remaining - y.work_hours| ≤ 1/10) →
        |(aggRowOf subs x).hours_completed + (aggRowOf subs x).hours_remaining
          - (aggRowOf subs x).work_hours| ≤ subs.length * (1/10) + 3/20) := by
  constructor
  · intro now t u
    show |round1 ((u.work_hours.getD t.work_hours) *
        ((u.percent_complete.getD t.percent_complete) / 100))
      + round1 ((u.work_hours.getD t.work_hours) *
        (1 - (u.percent_complete.getD t.percent_complete) / 100))
      - (u.work_hours.getD t.work_hours)| ≤ 1/10
    set wh := u.work_hours.getD t.work_hours
    set pc := u.percent_complete.getD t.percent_complete
    have h1 := abs_round1_sub_le (wh * (pc / 100))
    have h2 := abs_round1_sub_le (wh * (1 - pc / 100))
    have hsum : wh * (pc / 100) + wh * (1 - pc / 100) = wh := by ring
    rw [abs_le] at h1 h2 ⊢
    constructor <;> [skip; skip] <;>
      (try obtain ⟨h1a, h1b⟩ := h1) <;> (try obtain ⟨h2a, h2b⟩ := h2) <;> linarith
  · intro subs x hsub
    show |round1 ((subs.map Task.hours_completed).sum)
      + round1 ((subs.map Task.hours_remaining).sum)
      - round1 ((subs.map Task.work_hours).sum)|
      ≤ subs.length * (1/10) + 3/20
    set A := (subs.map Task.hours_completed).sum
    set B := (subs.map Task.hours_remaining).sum
    set C := (subs.map Task.work_hours).sum
    have hA := abs_round1_sub_le A
    have hB := abs_round1_sub_le B
    have hC := abs_round1_sub_le C
    have hsum : |A + B - C| ≤ subs.length * (1/10) := by
      rw [sum_hcr_split]
      exact abs_map_sum_le _ _ subs hsub
    rw [abs_le] at hA hB hC hsum ⊢
    obtain ⟨hA1, hA2⟩ := hA
    obtain ⟨hB1, hB2⟩ := hB
    obtain ⟨hC1, hC2⟩ := hC
    obtain ⟨hs1, hs2⟩ := hsum
    constructor <;> linarith

/-- C1 counterexample: after `update_task` sets subtask A to
work_hours = 0.08, percent = 50 and the parent aggregate is recomputed, the
parent row has work_hours = 0.2 but hours_completed = hours_remaining = 0.0,
so `|hours_completed + hours_remaining - work_hours| = 0.2 > 0.1`: the
claimed 0.1 tolerance fails for the recomputed parent. -/
theorem c1_counterexample :
    (getTask (update_task 0 c1Store 1 c1U) 3).map
        (fun t => |t.hours_completed + t.hours_remaining - t.work_hours|) = some (1/5)
    ∧ ¬((1:ℚ)/5 ≤ 1/10) := by
  constructor
  · norm_num [c1Store, c1U, T0, update_task, Updates.isEmpty, applyUpdates, getTask,
      writeTask, updateParentTotals, subtasksOf, aggRowOf, parentPct,
      earliestDate, latestDate, rhe, round1]
    simp
  · norm_num

/-- Witness for the amended C1 at concrete inputs. -/
theorem c1_amended_witness :
    |(applyUpdates 0 T0 c1U).hours_completed + (applyUpdates 0 T0 c1U).hours_remaining
      - (applyUpdates 0 T0 c1U).work_hours| ≤ 1/10
    ∧ |(aggRowOf [T0] T0).hours_completed + (aggRowOf [T0] T0).hours_remaining
        - (aggRowOf [T0] T0).work_hours| ≤ [T0].length * (1/10) + 3/20 :=
  ⟨c1_amended.1 0 T0 c1U,
   c1_amended.2 [T0] T0 (by intro y hy; simp only [List.mem_singleton] at hy; subst hy; norm_num [T0])⟩

/-! ### C2: variance and earned_value -/

/-- C2, as amended.  (1) The row written by `update_task` satisfies
`variance = work_hours - baseline_hours` (the SQL generated column) and
`earned_value = round(baseline_hours * percent_complete/100, 1)`.
(2) A parent row recomputed by `update_parent_task_totals` keeps the
variance identity, but its `earned_value` is the rounded *sum of the
subtask earned values* — not `baseline_hours * percent_complete/100`
(see the counterexample). -/
theorem c2_amended :
    (∀ (now : ℕ) (t : Task) (u : Updates),
      (applyUpdates now t u).variance =
        (applyUpdates now t u).work_hours - (applyUpdates now t u).baseline_hours
      ∧ (applyUpdates now t u).earned_value =
        round1 ((applyUpdates now t u).baseline_hours *
          ((applyUpdates now t u).percent_complete / 100)))
    ∧ (∀ (s : Store) (p : String) (i : ℕ) (x : Task),
        getTask (updateParentTotals s p) i = some x → x.task = p →
        subtasksOf s p ≠ [] →
        x.variance = x.work_hours - x.baseline_hours
        ∧ x.earned_value = round1 (((subtasksOf s p).map Task.earned_value).sum)) := by
  constructor
  · intro now t u
    exact ⟨rfl, rfl⟩
  · intro s p i x hx hxp hne
    unfold updateParentTotals at hx
    dsimp only at hx
    rw [if_neg (by simpa using hne)] at hx
    unfold getTask at hx
    have hmem : x ∈ List.map
        (fun y => if y.task == p then aggRowOf (subtasksOf s p) y else y) s :=
      List.mem_of_find?_eq_some hx
    obtain ⟨y, hy, hfy⟩ := List.mem_map.mp hmem
    by_cases hyp : y.task = p
    · rw [if_pos (by simpa using hyp)] at hfy
      rw [← hfy]
      exact ⟨rfl, rfl⟩
    · rw [if_neg (by simpa using hyp)] at hfy
      exact absurd (hfy ▸ hxp) hyp

/-- C2 counterexample: after a mutation of subtask B triggers the parent
recomputation, the parent row P has earned_value = 0 (sum of subtask earned
values) while `baseline_hours * percent_complete/100 = 10 * 50/100 = 5`, so
the claimed identity `earned_value == baseline_hours * percent_complete/100`
fails post-mutation for the parent. -/
theorem c2_counterexample :
    (getTask (update_task 0 c2Store 2 c2U) 3).map
        (fun t => (t.earned_value, t.baseline_hours * (t.percent_complete / 100)))
      = some ((0 : ℚ), (5 : ℚ))
    ∧ (0 : ℚ) ≠ 5 := by
  constructor
  · norm_num [c2Store, c2U, T0, update_task, Updates.isEmpty, applyUpdates, getTask,
      writeTask, updateParentTotals, subtasksOf, aggRowOf, parentPct,
      earliestDate, latestDate, rhe, round1]
    simp
    norm_num
  · norm_num

/-- Witness for the amended C2 at concrete inputs. -/
theorem c2_amended_witness :
    ((applyUpdates 0 T0 c2U).variance =
        (applyUpdates 0 T0 c2U).work_hours - (applyUpdates 0 T0 c2U).baseline_hours
      ∧ (applyUpdates 0 T0 c2U).earned_value =
        round1 ((applyUpdates 0 T0 c2U).baseline_hours *
          ((applyUpdates 0 T0 c2U).percent_complete / 100)))
    ∧ (c2WParent.variance = c2WParent.work_hours - c2WParent.baseline_hours
      ∧ c2WParent.earned_value =
        round1 (((subtasksOf c2WStore "P").map Task.earned_value).sum)) := by
  constructor
  · exact c2_amended.1 0 T0 c2U
  · have hx : getTask (updateParentTotals c2WStore "P") 2 = some c2WParent := by
      norm_num [c2WStore, c2WParent, T0, getTask, updateParentTotals, subtasksOf,
        aggRowOf, parentPct, earliestDate, latestDate, rhe, round1]
    have hne : subtasksOf c2WStore "P" ≠ [] := by
      norm_num [c2WStore, T0, subtasksOf]
    exact c2_amended.2 c2WStore "P" 2 c2WParent hx rfl hne

/-! ### Field projections of the updated row, and helper bounds -/

theorem applyUpdates_id (now : ℕ) (t : Task) (u : Updates) :
    (applyUpdates now t u).id = t.id := rfl

theorem applyUpdates_task (now : ℕ) (t : Task) (u : Updates) :
    (applyUpdates now t u).task = u.task.getD t.task := rfl

theorem applyUpdates_parent (now : ℕ) (t : Task) (u : Updates) :
    (applyUpdates now t u).parent_task =
      match u.parent_task with
      | some p => some p
      | none => t.parent_task := rfl

theorem applyUpdates_work_hours (now : ℕ) (t : Task) (u : Updates) :
    (applyUpdates now t u).work_hours = u.work_hours.getD t.work_hours := rfl

theorem applyUpdates_percent (now : ℕ) (t : Task) (u : Updates) :
    (applyUpdates now t u).percent_complete =
      u.percent_complete.getD t.percent_complete := rfl

theorem applyUpdates_hc (now : ℕ) (t : Task) (u : Updates) :
    (applyUpdates now t u).hours_completed =
      round1 ((u.work_hours.getD t.work_hours) *
        ((u.percent_complete.getD t.percent_complete) / 100)) := rfl

theorem applyUpdates_finish (now : ℕ) (t : Task) (u : Updates) :
    (applyUpdates now t u).finish_date =
      (if (u.percent_complete.isSome || u.work_hours.isSome) && u.finish_date.isNone then
        if 0 < (u.work_hours.getD t.work_hours) *
            (1 - (u.percent_complete.getD t.percent_complete) / 100)
            ∧ t.start_date.isSome then
          some (recalcFinish now ((u.work_hours.getD t.work_hours) *
            (1 - (u.percent_complete.getD t.percent_complete) / 100)))
        else t.finish_date
      else match u.finish_date with
        | some f => some f
        | none => t.finish_date) := rfl

theorem round1_nonneg {q : ℚ} (h : 0 ≤ q) : 0 ≤ round1 q := by
  unfold round1
  have h10 : (0:ℚ) ≤ 10 * q := by linarith
  have := rhe_nonneg h10
  have hcast : (0:ℚ) ≤ (rhe (10 * q) : ℚ) := by exact_mod_cast this
  linarith

theorem ratTrunc_intCast (n : ℤ) : ratTrunc ((n : ℤ) : ℚ) = (n : ℚ) := by
  unfold ratTrunc
  rw [Rat.intCast_num, Rat.intCast_den]
  have h1 : n.natAbs / 1 = n.natAbs := Nat.div_one _
  rw [h1]
  exact_mod_cast Int.sign_mul_natAbs n

/-- The task row that `update_task` leaves in the store for the updated id:
exactly `applyUpdates`, provided the row exists, the update dict is
nonempty, and the updated row is not named after its own parent (so the
synchronous parent re-aggregation does not touch it). -/
theorem getTask_update_task {now : ℕ} {s : Store} {i : ℕ} {u : Updates} {t : Task}
    (ht : getTask s i = some t) (hne : ¬u.isEmpty = true)
    (hpar : ∀ p, (applyUpdates now t u).parent_task = some p →
      (applyUpdates now t u).task ≠ p) :
    getTask (update_task now s i u) i = some (applyUpdates now t u) := by
  unfold update_task
  rw [if_neg hne, ht]
  dsimp only
  have hid : (applyUpdates now t u).id = i := by
    rw [applyUpdates_id]
    exact getTask_id ht
  have hw : getTask (writeTask s i (applyUpdates now t u)) i =
      some (applyUpdates now t u) := getTask_writeTask_of_found ht hid
  cases hp : (applyUpdates now t u).parent_task with
  | none => exact hw
  | some p => exact getTask_updateParentTotals_of_ne hw (hpar p hp)

theorem flatten_nil_of_all {α : Type} :
    ∀ l : List (List α), (∀ x ∈ l, x = []) → l.flatten = []
  | [], _ => rfl
  | a :: l, h => by
    rw [List.flatten_cons, h a (List.mem_cons_self a l), List.nil_append]
    exact flatten_nil_of_all l (fun x hx => h x (List.mem_cons_of_mem _ hx))

theorem validateErrors_work_hours {s : Store} {tid : ℕ} {v : ℚ} {t : Task}
    (ht : getTask s tid = some t) (hv : 0 ≤ v) :
    validateErrors s ⟨tid, .work_hours, v⟩ = [] := by
  unfold validateErrors
  rw [ht]
  simp [not_lt.mpr hv]

theorem validateErrors_percent {s : Store} {tid : ℕ} {v : ℚ} {t : Task}
    (ht : getTask s tid = some t) (h0 : 0 ≤ ratTrunc v) (h100 : ratTrunc v ≤ 100) :
    validateErrors s ⟨tid, .percent_complete, v⟩ = [] := by
  unfold validateErrors
  rw [ht]
  simp [not_lt.mpr h0, not_lt.mpr h100]

theorem apply_changes_ok (now : ℕ) {s : Store} {cs fcs : List Change}
    (hf : cs.filter
      (fun c => !(c.field == .variance || c.field == .earned_value)) = fcs)
    (hval : ∀ c ∈ fcs, validateErrors s c = []) :
    apply_changes now s cs = .ok
      ((firstDedup (fcs.map Change.id)).foldl
        (fun st i => update_task now st i (taskUpdatesFor fcs i)) s) := by
  unfold apply_changes
  dsimp only
  rw [hf]
  have hfl : (fcs.map (validateErrors s)).flatten = [] := by
    apply flatten_nil_of_all
    intro x hx
    obtain ⟨c, hc, rfl⟩ := List.mem_map.mp hx
    exact hval c hc
  rw [hfl]
  rfl

/-! ### C10: finish_date recomputation -/

/-- C10, as amended.  (1) When the caller did not supply `finish_date`,
`percent_complete` or `work_hours` is among the updated fields, the
re-derived (un-rounded) remaining hours are positive **and the task has a
start date** (a condition the claim omits — see the counterexample), the
stored `finish_date` is the weekend-skipping projection from the current
date.  (2) A caller-supplied `finish_date` is stored unchanged. -/
theorem c10_amended :
    (∀ (now : ℕ) (t : Task) (u : Updates),
      u.finish_date = none →
      (u.percent_complete.isSome = true ∨ u.work_hours.isSome = true) →
      0 < (u.work_hours.getD t.work_hours) *
        (1 - (u.percent_complete.getD t.percent_complete) / 100) →
      t.start_date.isSome = true →
      (applyUpdates now t u).finish_date =
        some (recalcFinish now ((u.work_hours.getD t.work_hours) *
          (1 - (u.percent_complete.getD t.percent_complete) / 100))))
    ∧ (∀ (now : ℕ) (t : Task) (u : Updates) (f : ℕ),
      u.finish_date = some f → (applyUpdates now t u).finish_date = some f) := by
  constructor
  · intro now t u hfin hpw hr hst
    have hc1 : ((u.percent_complete.isSome || u.work_hours.isSome)
        && u.finish_date.isNone) = true := by
      rcases hpw with h | h <;> simp [h, hfin]
    rw [applyUpdates_finish, if_pos hc1, if_pos ⟨hr, hst⟩]
  · intro now t u f hf
    rw [applyUpdates_finish, hf]
    simp [hf]

/-- C10 counterexample: updating percent_complete to 50 leaves 5 remaining
hours (positive), yet the stored finish_date stays at the old day 100 —
it is not recomputed, because the task has no start date; the projection
the claim demands would give day 1 instead. -/
theorem c10_counterexample :
    (getTask (update_task 0 c10Store 1 c10U) 1).map Task.finish_date
      = some (some 100)
    ∧ recalcFinish 0 (10 * (1 - 50/100)) = 1
    ∧ some (100 : ℕ) ≠ some (recalcFinish 0 (10 * (1 - 50/100))) := by
  have hrc : recalcFinish 0 (10 * (1 - 50/100)) = 1 := by
    unfold recalcFinish
    have h0 : max ((10 * (1 - 50/100) : ℚ) / 8) 0 = 5/8 := by norm_num
    have h1 : (⌈(5:ℚ)/8⌉ : ℤ) = 1 := by
      rw [Int.ceil_eq_iff]
      constructor <;> norm_num
    rw [h0, h1]
    norm_num [projectFinish, stepWeekday]
  refine ⟨?_, hrc, ?_⟩
  · norm_num [c10Store, c10U, T0, update_task, Updates.isEmpty, applyUpdates,
      getTask, writeTask, updateParentTotals, subtasksOf, rhe, round1]
  · rw [hrc]
    norm_num

/-- Witness for the amended C10 at concrete inputs. -/
theorem c10_amended_witness :
    (applyUpdates 0 c10WTask c10U).finish_date =
      some (recalcFinish 0 ((c10U.work_hours.getD c10WTask.work_hours) *
        (1 - (c10U.percent_complete.getD c10WTask.percent_complete) / 100)))
    ∧ (applyUpdates 0 c10WTask { finish_date := some 42 }).finish_date = some 42 := by
  constructor
  · exact c10_amended.1 0 c10WTask c10U rfl (Or.inl rfl)
      (by norm_num [c10U, c10WTask, T0]) (by norm_num [c10WTask, T0])
  · exact c10_amended.2 0 c10WTask { finish_date := some 42 } 42 rfl

theorem logPct_trunc_bounds {nc whv : ℚ} (hnc : 0 ≤ nc) :
    0 ≤ ratTrunc (if 0 < whv then min ((rhe ((nc / whv) * 100) : ℤ) : ℚ) 100 else 0)
    ∧ ratTrunc (if 0 < whv then min ((rhe ((nc / whv) * 100) : ℤ) : ℚ) 100 else 0)
      ≤ 100 := by
  by_cases h : 0 < whv
  · rw [if_pos h]
    have ha : 0 ≤ rhe ((nc / whv) * 100) :=
      rhe_nonneg (mul_nonneg (div_nonneg hnc h.le) (by norm_num))
    have hmin : min ((rhe ((nc / whv) * 100) : ℤ) : ℚ) 100
        = ((min (rhe ((nc / whv) * 100)) 100 : ℤ) : ℚ) := by
      rw [Int.cast_min]
      norm_num
    rw [hmin, ratTrunc_intCast]
    constructor
    · exact_mod_cast le_min ha (by norm_num)
    · exact_mod_cast min_le_right _ _
  · rw [if_neg h]
    rw [show (0:ℚ) = ((0:ℤ):ℚ) by norm_num, ratTrunc_intCast]
    norm_num

/-- What the `log_hours` path stores, in full (helper): the raised
work_hours, the recomputed percent, and the re-derived hours_completed. -/
theorem log_hours_spec (now : ℕ) (s : Store) (tid : ℕ) (hours : ℚ) (t : Task)
    (ht : getTask s tid = some t)
    (hh : 0 ≤ hours) (hhc : 0 ≤ t.hours_completed)
    (hpar : ∀ p, t.parent_task = some p → t.task ≠ p) :
    ∃ t', getTask (log_hours_pipeline now s tid hours none) tid = some t'
      ∧ t'.work_hours =
          (if (t.work_hours < t.hours_completed + hours ∧ 0 < t.work_hours)
              ∨ t.work_hours ≤ 0
            then round1 (t.hours_completed + hours) else t.work_hours)
      ∧ t'.percent_complete =
          (if 0 < (if (t.work_hours < t.hours_completed + hours ∧ 0 < t.work_hours)
                ∨ t.work_hours ≤ 0
              then t.hours_completed + hours else t.work_hours) then
            min ((rhe (((t.hours_completed + hours) /
              (if (t.work_hours < t.hours_completed + hours ∧ 0 < t.work_hours)
                  ∨ t.work_hours ≤ 0
                then t.hours_completed + hours else t.work_hours)) * 100) : ℤ) : ℚ) 100
          else 0)
      ∧ t'.hours_completed = round1 (t'.work_hours * (t'.percent_complete / 100)) := by
  set nc := t.hours_completed + hours with hnc_def
  have hnc : 0 ≤ nc := by positivity
  set raised := (t.work_hours < nc ∧ 0 < t.work_hours) ∨ t.work_hours ≤ 0 with hraised
  set whv : ℚ := if raised then nc else t.work_hours with hwhv
  set pc : ℚ := if 0 < whv then min ((rhe ((nc / whv) * 100) : ℤ) : ℚ) 100 else 0
    with hpc
  have hlh : handle_log_hours s tid hours none =
      some ((if raised then [⟨tid, .work_hours, round1 nc⟩] else [])
        ++ [⟨tid, .percent_complete, pc⟩]) := by
    unfold handle_log_hours
    rw [ht]
  have hpcb := @logPct_trunc_bounds nc whv hnc
  rw [← hpc] at hpcb
  unfold log_hours_pipeline
  rw [hlh]
  dsimp only
  by_cases hr : raised
  · -- work_hours raised to round1 nc, then percent set
    rw [if_pos hr]
    have hfil : (([⟨tid, .work_hours, round1 nc⟩, ⟨tid, .percent_complete, pc⟩]
          : List Change).filter
        (fun c => !(c.field == .variance || c.field == .earned_value)))
        = [⟨tid, .work_hours, round1 nc⟩, ⟨tid, .percent_complete, pc⟩] := rfl
    have hval : ∀ c ∈ ([⟨tid, .work_hours, round1 nc⟩, ⟨tid, .percent_complete, pc⟩]
        : List Change), validateErrors s c = [] := by
      intro c hc
      simp only [List.mem_cons, List.mem_singleton, List.not_mem_nil, or_false] at hc
      rcases hc with rfl | rfl
      · exact validateErrors_work_hours ht (round1_nonneg hnc)
      · exact validateErrors_percent ht hpcb.1 hpcb.2
    have hcs : apply_changes now s
        ([⟨tid, .work_hours, round1 nc⟩] ++ [⟨tid, .percent_complete, pc⟩])
        = .ok (update_task now s tid
            { work_hours := some (round1 nc), percent_complete := some pc }) := by
      rw [List.singleton_append]
      rw [apply_changes_ok now hfil hval]
      have hdd : firstDedup (([⟨tid, .work_hours, round1 nc⟩,
          ⟨tid, .percent_complete, pc⟩] : List Change).map Change.id) = [tid] := by
        simp [firstDedup]
      have htu : taskUpdatesFor ([⟨tid, .work_hours, round1 nc⟩,
          ⟨tid, .percent_complete, pc⟩] : List Change) tid
          = { work_hours := some (round1 nc), percent_complete := some pc } := by
        simp [taskUpdatesFor, setChange, List.filter]
      rw [hdd, List.foldl_cons, List.foldl_nil, htu]
    rw [List.singleton_append] at hcs ⊢
    rw [hcs]
    dsimp only
    set u : Updates := { work_hours := some (round1 nc), percent_complete := some pc }
      with hu
    have hne : ¬u.isEmpty = true := by simp [hu, Updates.isEmpty]
    have hpar' : ∀ p, (applyUpdates now t u).parent_task = some p →
        (applyUpdates now t u).task ≠ p := by
      intro p hp
      rw [applyUpdates_parent] at hp
      rw [applyUpdates_task]
      exact hpar p hp
    refine ⟨applyUpdates now t u, getTask_update_task ht hne hpar', ?_, ?_, ?_⟩
    · rw [applyUpdates_work_hours, if_pos hr]
      rfl
    · rw [applyUpdates_percent]
      rfl
    · rw [applyUpdates_hc, applyUpdates_work_hours, applyUpdates_percent]
  · -- work_hours untouched, only percent set
    rw [if_neg hr]
    have hfil : (([⟨tid, .percent_complete, pc⟩] : List Change).filter
        (fun c => !(c.field == .variance || c.field == .earned_value)))
        = [⟨tid, .percent_complete, pc⟩] := rfl
    have hval : ∀ c ∈ ([⟨tid, .percent_complete, pc⟩] : List Change),
        validateErrors s c = [] := by
      intro c hc
      simp only [List.mem_singleton] at hc
      subst hc
      exact validateErrors_percent ht hpcb.1 hpcb.2
    have hcs : apply_changes now s ([] ++ [⟨tid, .percent_complete, pc⟩])
        = .ok (update_task now s tid { percent_complete := some pc }) := by
      rw [show (([] ++ [⟨tid, .percent_complete, pc⟩]) : List Change)
          = [⟨tid, .percent_complete, pc⟩] from rfl]
      rw [apply_changes_ok now hfil hval]
      have hdd : firstDedup (([⟨tid, .percent_complete, pc⟩] : List Change).map
          Change.id) = [tid] := by
        simp [firstDedup]
      have htu : taskUpdatesFor ([⟨tid, .percent_complete, pc⟩] : List Change) tid
          = { percent_complete := some pc } := by
        simp [taskUpdatesFor, setChange, List.filter]
      rw [hdd, List.foldl_cons, List.foldl_nil, htu]
    rw [hcs]
    dsimp only
    set u : Updates := { percent_complete := some pc } with hu
    have hne : ¬u.isEmpty = true := by simp [hu, Updates.isEmpty]
    have hpar' : ∀ p, (applyUpdates now t u).parent_task = some p →
        (applyUpdates now t u).task ≠ p := by
      intro p hp
      rw [applyUpdates_parent] at hp
      rw [applyUpdates_task]
      exact hpar p hp
    refine ⟨applyUpdates now t u, getTask_update_task ht hne hpar', ?_, ?_, ?_⟩
    · rw [applyUpdates_work_hours, if_neg hr]
      rfl
    · rw [applyUpdates_percent]
      rfl
    · rw [applyUpdates_hc, applyUpdates_work_hours, applyUpdates_percent]

/-- C3, as amended.  For `log_hours` of `hours` on an existing task (with no
named phase): `work_hours` is raised to the *rounded* new completed total
exactly when that total exceeds it or it was zero/unset; the new
`percent_complete` is `min(round(100 * new_completed / work_hours'), 100)`
against the raised (un-rounded) total; and the stored `hours_completed` is
re-derived as `round(work_hours' * percent'/100, 1)` — which can differ from
`current hours_completed + hours` (see the counterexample). -/
theorem c3_amended (now : ℕ) (s : Store) (tid : ℕ) (hours : ℚ) (t : Task)
    (ht : getTask s tid = some t)
    (hh : 0 ≤ hours) (hhc : 0 ≤ t.hours_completed)
    (hpar : ∀ p, t.parent_task = some p → t.task ≠ p) :
    ∃ t', getTask (log_hours_pipeline now s tid hours none) tid = some t'
      ∧ t'.work_hours =
          (if (t.work_hours < t.hours_completed + hours ∧ 0 < t.work_hours)
              ∨ t.work_hours ≤ 0
            then round1 (t.hours_completed + hours) else t.work_hours)
      ∧ t'.percent_complete =
          (if 0 < (if (t.work_hours < t.hours_completed + hours ∧ 0 < t.work_hours)
                ∨ t.work_hours ≤ 0
              then t.hours_completed + hours else t.work_hours) then
            min ((rhe (((t.hours_completed + hours) /
              (if (t.work_hours < t.hours_completed + hours ∧ 0 < t.work_hours)
                  ∨ t.work_hours ≤ 0
                then t.hours_completed + hours else t.work_hours)) * 100) : ℤ) : ℚ) 100
          else 0)
      ∧ t'.hours_completed = round1 (t'.work_hours * (t'.percent_complete / 100)) :=
  log_hours_spec now s tid hours t ht hh hhc hpar

/-- C3 counterexample: logging 10 hours on a task with work_hours = 30 and
hours_completed = 0 stores percent_complete = round(100*10/30) = 33 and then
re-derives hours_completed = round(30 * 33/100, 1) = 9.9 — not the claimed
`current hours_completed + delta = 10`. -/
theorem c3_counterexample :
    ∃ t', getTask (log_hours_pipeline 0 c3Store 1 10 none) 1 = some t'
      ∧ t'.hours_completed = 99/10
      ∧ (99:ℚ)/10 ≠ 0 + 10 := by
  obtain ⟨t', hget, hw, hp, hc⟩ := log_hours_spec 0 c3Store 1 10
    { T0 with id := 1, task := "A", work_hours := 30, hours_remaining := 30 }
    rfl (by norm_num) (by norm_num [T0]) (by intro p hp; simp [T0] at hp)
  have hw' : t'.work_hours = 30 := by
    rw [hw]
    norm_num [T0]
  have hp' : t'.percent_complete = 33 := by
    rw [hp]
    norm_num [T0, rhe]
  have hc' : t'.hours_completed = 99/10 := by
    rw [hc, hw', hp']
    norm_num [round1, rhe]
  exact ⟨t', hget, hc', by norm_num⟩

/-- Witness for the amended C3: logging 15 hours on a task with
work_hours = 0 sets work_hours to 15, percent_complete to 100, and the
stored hours_completed to 15. -/
theorem c3_amended_witness :
    ∃ t', getTask (log_hours_pipeline 0 c3WStore 1 15 none) 1 = some t'
      ∧ t'.work_hours = 15 ∧ t'.percent_complete = 100
      ∧ t'.hours_completed = 15 := by
  obtain ⟨t', hget, hw, hp, hc⟩ := c3_amended 0 c3WStore 1 15
    { T0 with id := 1, task := "A" } rfl (by norm_num) (by norm_num [T0])
    (by intro p hp; simp [T0] at hp)
  refine ⟨t', hget, ?_, ?_, ?_⟩
  · rw [hw]
    norm_num [T0, round1, rhe]
  · rw [hp]
    norm_num [T0, rhe]
  · rw [hc, hw, hp]
    norm_num [T0, round1, rhe]

/-! ### C4: add_hours without a named phase -/

/-- C4: for `add_hours` with no named phase or mode on an existing task: if
all three phase-hour figures are zero the delta goes straight onto
`work_hours` (one change, no phase split, no clarification); otherwise the
handler answers with a clarify outcome carrying exactly 5 options — the 4th
labelled "Scale all phases proportionally" (ordinal 4), the 5th "Cancel"
(ordinal 5) — the task store is unchanged, and only a pending action is
recorded, so no task field changes until an option is resolved. -/
theorem c4_add_hours_no_phase (now : ℕ) (s : Store) (ps : PStore) (tid : ℕ)
    (hours : ℚ) (t : Task) (ht : getTask s tid = some t)
    (hd : 0 ≤ t.dev_hours) (hte : 0 ≤ t.test_hours) (hrv : 0 ≤ t.review_hours) :
    ((t.dev_hours = 0 ∧ t.test_hours = 0 ∧ t.review_hours = 0) →
      handle_add_hours now s ps tid hours none none
        = (.direct [⟨tid, .work_hours, round1 (t.work_hours + hours)⟩], s, ps))
    ∧ (¬(t.dev_hours = 0 ∧ t.test_hours = 0 ∧ t.review_hours = 0) →
      ∃ opts, handle_add_hours now s ps tid hours none none
          = (.clarify opts, s,
             (create_pending_action ps now tid "phase_selection"
               ("Add " ++ toString hours ++ "h") opts).2)
        ∧ opts.length = 5
        ∧ opts[3]?.map Opt.label = some "Scale all phases proportionally"
        ∧ opts[4]?.map Opt.label = some "Cancel"
        ∧ opts[3]?.map Opt.option = some 4
        ∧ opts[4]?.map Opt.option = some 5) := by
  constructor
  · intro hz
    obtain ⟨h1, h2, h3⟩ := hz
    unfold handle_add_hours
    rw [ht]
    dsimp only
    have hcond : ((none : Option String).isNone
        && (none : Option String).isNone) = true := rfl
    rw [if_pos hcond, if_pos (by simp [h1, h2, h3])]
  · intro hnz
    have hph : 0 < t.dev_hours ∨ 0 < t.test_hours ∨ 0 < t.review_hours := by
      by_contra hcon
      push_neg at hcon
      exact hnz ⟨le_antisymm hcon.1 hd, le_antisymm hcon.2.1 hte,
        le_antisymm hcon.2.2 hrv⟩
    unfold handle_add_hours
    rw [ht]
    dsimp only
    have hcond : ((none : Option String).isNone
        && (none : Option String).isNone) = true := rfl
    rw [if_pos hcond, if_neg (not_not_intro hph)]
    refine ⟨create_phase_selection_options t hours, rfl, ?_, ?_, ?_, ?_, ?_⟩
    · by_cases h : 0 < t.work_hours <;> simp [create_phase_selection_options, h]
    · by_cases h : 0 < t.work_hours <;> simp [create_phase_selection_options, h]
    · by_cases h : 0 < t.work_hours <;> simp [create_phase_selection_options, h]
    · by_cases h : 0 < t.work_hours <;> simp [create_phase_selection_options, h]
    · by_cases h : 0 < t.work_hours <;> simp [create_phase_selection_options, h]

/-- Witness for C4 at concrete inputs: the zero-phase task gets a direct
work_hours change, the phased task gets the 5-option clarify outcome. -/
theorem c4_add_hours_no_phase_witness :
    handle_add_hours 0 c4ZStore [] 1 3 none none
      = (.direct [⟨1, .work_hours, round1 (7 + 3)⟩], c4ZStore, [])
    ∧ ∃ opts, handle_add_hours 0 c4PStore [] 1 10 none none
        = (.clarify opts, c4PStore,
           (create_pending_action [] 0 1 "phase_selection"
             ("Add " ++ toString (10:ℚ) ++ "h") opts).2)
      ∧ opts.length = 5
      ∧ opts[3]?.map Opt.label = some "Scale all phases proportionally"
      ∧ opts[4]?.map Opt.label = some "Cancel"
      ∧ opts[3]?.map Opt.option = some 4
      ∧ opts[4]?.map Opt.option = some 5 := by
  constructor
  · exact (c4_add_hours_no_phase 0 c4ZStore [] 1 3 _ rfl (by norm_num [T0])
      (by norm_num [T0]) (by norm_num [T0])).1 ⟨rfl, rfl, rfl⟩
  · exact (c4_add_hours_no_phase 0 c4PStore [] 1 10 _ rfl (by norm_num [T0])
      (by norm_num [T0]) (by norm_num [T0])).2 (by norm_num [T0])

/-! ### C5: pending-action resolution -/

theorem get_pending_setStatus_self (ps : PStore) (aid : ℕ) (st : PAStatus)
    (hst : st ≠ .pending) :
    get_pending_action (setPendingStatus ps aid st) aid = none := by
  unfold get_pending_action setPendingStatus
  induction ps with
  | nil => rfl
  | cons a ps ih =>
    rw [List.map_cons, List.find?_cons_of_neg]
    · exact ih
    · by_cases h : a.id = aid
      · rw [if_pos (by simpa using h)]
        simp [hst]
      · rw [if_neg (by simpa using h)]
        simp [h]

/-- C5, as amended.  (1) Resolution reports not-found exactly when no
pending-status row with that id exists — a missing action, an
already-resolved one, and an *expired but still pending* one are decided by
the status filter alone.  (2) After any successful resolution (executed or
cancelled) a second attempt on the same action reports not-found.
(3) The result kind does not depend on the clock or the task store at all —
in particular `expires_at` is never consulted (the claim's expiry clause
fails, see the counterexample). -/
theorem c5_amended :
    (∀ (now : ℕ) (s : Store) (ps : PStore) (aid chosen : ℕ),
      (execute_pending_action now s ps aid chosen).1 = .notFound
        ↔ get_pending_action ps aid = none)
    ∧ (∀ (now : ℕ) (s : Store) (ps : PStore) (aid chosen : ℕ)
        (now2 : ℕ) (s2 : Store) (chosen2 : ℕ),
      (execute_pending_action now s ps aid chosen).1 ≠ .notFound →
      (execute_pending_action now s ps aid chosen).1 ≠ .invalidOption →
      (execute_pending_action now2 s2
        (execute_pending_action now s ps aid chosen).2.2 aid chosen2).1
        = .notFound)
    ∧ (∀ (now1 now2 : ℕ) (s1 s2 : Store) (ps : PStore) (aid chosen : ℕ),
      (execute_pending_action now1 s1 ps aid chosen).1
        = (execute_pending_action now2 s2 ps aid chosen).1) := by
  refine ⟨?_, ?_, ?_⟩
  · intro now s ps aid chosen
    unfold execute_pending_action
    cases hga : get_pending_action ps aid with
    | none => simp
    | some a =>
      dsimp only
      split
      · simp
      · split <;> simp
  · intro now s ps aid chosen now2 s2 chosen2 h1 h2
    unfold execute_pending_action at h1 h2 ⊢
    generalize hga : get_pending_action ps aid = ga at h1 h2 ⊢
    cases ga with
    | none =>
      dsimp only at h1
      exact absurd rfl h1
    | some a =>
      dsimp only at h1 h2 ⊢
      generalize hfo : List.find? (fun o => o.option == chosen) a.options = fo
        at h1 h2 ⊢
      cases fo with
      | none =>
        dsimp only at h2
        exact absurd rfl h2
      | some o =>
        dsimp only at h1 h2 ⊢
        by_cases hc : isCancelOpt o = true
        · rw [if_pos hc]
          dsimp only
          rw [get_pending_setStatus_self ps aid .cancelled (by simp)]
        · rw [if_neg hc]
          dsimp only
          rw [get_pending_setStatus_self ps aid .executed (by simp)]
  · intro now1 now2 s1 s2 ps aid chosen
    unfold execute_pending_action
    cases hga : get_pending_action ps aid with
    | none => rfl
    | some a =>
      dsimp only
      split
      · rfl
      · split <;> rfl

/-- C5 counterexample: resolving a pending action *after* its expiry
timestamp (now = 9999 > expires_at = 10) is not reported as not-found — it
resolves normally (here: cancelled), because `expires_at` is stored but
never read. -/
theorem c5_counterexample :
    (10 : ℕ) < 9999
    ∧ (execute_pending_action 9999 [] c5PStore 1 1).1 = .cancelledOk
    ∧ ExecResult.cancelledOk ≠ .notFound := by
  refine ⟨by norm_num, ?_, by simp⟩
  have hcan : isCancelOpt ⟨1, "Cancel", "No changes", []⟩ = true := by decide
  have hga : get_pending_action c5PStore 1
      = some { id := 1, task_id := 1, action_type := "phase_selection",
               original_query := "q",
               options := [⟨1, "Cancel", "No changes", []⟩],
               expires_at := 10, status := .pending } := rfl
  unfold execute_pending_action
  rw [hga]
  simp [hcan]

/-- Witness for the amended C5: a concrete first resolution succeeds
(cancelled), and by the theorem a second attempt reports not-found. -/
theorem c5_amended_witness :
    (execute_pending_action 0 [] c5PStore 1 1).1 = .cancelledOk
    ∧ (execute_pending_action 0 []
        (execute_pending_action 0 [] c5PStore 1 1).2.2 1 1).1 = .notFound := by
  have hcan : isCancelOpt ⟨1, "Cancel", "No changes", []⟩ = true := by decide
  have h1 : execute_pending_action 0 [] c5PStore 1 1
      = (.cancelledOk, [], setPendingStatus c5PStore 1 .cancelled) := by
    unfold execute_pending_action
    rw [show get_pending_action c5PStore 1
      = some { id := 1, task_id := 1, action_type := "phase_selection",
               original_query := "q",
               options := [⟨1, "Cancel", "No changes", []⟩],
               expires_at := 10, status := .pending } from rfl]
    simp [hcan]
  constructor
  · rw [h1]
  · exact c5_amended.2.1 0 [] c5PStore 1 1 0 [] 1
      (by rw [h1]; simp) (by rw [h1]; simp)

/-! ### C6: all-or-nothing validation in apply_changes -/

theorem flatten_ne_nil_of_mem {α : Type} {l : List (List α)} {x : List α}
    (hx : x ∈ l) (hne : x ≠ []) : l.flatten ≠ [] := by
  intro hcon
  induction l with
  | nil => cases hx
  | cons a l ih =>
    rw [List.flatten_cons] at hcon
    obtain ⟨ha, hl⟩ := List.append_eq_nil.mp hcon
    rcases List.mem_cons.mp hx with rfl | hx'
    · exact hne ha
    · exact ih hx' hl

/-- C6, as amended.  (1) Changes to the auto-calculated fields `variance`
and `earned_value` are silently dropped before validation — `apply_changes`
behaves exactly as if they were never proposed (so a set containing them can
succeed without those changes passing validation or being written, see the
counterexample).  (2) If any remaining change fails validation, a non-empty
error list is returned (and, the error branch performing no `update_task`
call, nothing is written).  (3) If every remaining change is valid, the
changes are applied grouped into one `update_task` call per task id.
(4) Any change set containing percent_complete = 150 is rejected with the
range error and nothing is written. -/
theorem c6_amended :
    (∀ (now : ℕ) (s : Store) (cs : List Change),
      apply_changes now s cs
        = apply_changes now s (cs.filter
            (fun c => !(c.field == .variance || c.field == .earned_value))))
    ∧ (∀ (now : ℕ) (s : Store) (cs : List Change),
        (∃ c ∈ cs.filter (fun c => !(c.field == .variance || c.field == .earned_value)),
            validateErrors s c ≠ []) →
        ∃ errs, apply_changes now s cs = .error errs ∧ errs ≠ [])
    ∧ (∀ (now : ℕ) (s : Store) (cs : List Change),
        (∀ c ∈ cs.filter (fun c => !(c.field == .variance || c.field == .earned_value)),
            validateErrors s c = []) →
        apply_changes now s cs = .ok
          ((firstDedup ((cs.filter
              (fun c => !(c.field == .variance || c.field == .earned_value))).map
                Change.id)).foldl
            (fun st i => update_task now st i (taskUpdatesFor
              (cs.filter
                (fun c => !(c.field == .variance || c.field == .earned_value))) i)) s))
    ∧ (∀ (now : ℕ) (s : Store) (cs : List Change) (i : ℕ),
        (⟨i, .percent_complete, 150⟩ : Change) ∈ cs →
        ∃ errs, apply_changes now s cs = .error errs
          ∧ "percent_complete must be <= 100" ∈ errs) := by
  have h150 : ∀ (s : Store) (i : ℕ),
      "percent_complete must be <= 100" ∈ validateErrors s ⟨i, .percent_complete, 150⟩ := by
    intro s i
    have htr : ratTrunc 150 = 150 := by
      rw [show (150:ℚ) = ((150:ℤ):ℚ) by norm_num, ratTrunc_intCast]
    unfold validateErrors
    cases hg : getTask s i <;> simp [htr, show (100:ℚ) < 150 by norm_num,
      show ¬(150:ℚ) < 0 by norm_num]
  refine ⟨?_, ?_, ?_, ?_⟩
  · intro now s cs
    unfold apply_changes
    rw [List.filter_filter]
    have : (fun c => ((!(c.field == FieldName.variance
          || c.field == FieldName.earned_value))
        && (!(c.field == FieldName.variance
          || c.field == FieldName.earned_value)))) =
        (fun c : Change => (!(c.field == FieldName.variance
          || c.field == FieldName.earned_value))) := by
      funext c
      rw [Bool.and_self]
    rw [this]
  · intro now s cs hex
    obtain ⟨c, hc, hne⟩ := hex
    unfold apply_changes
    dsimp only
    have hfl : ((cs.filter
        (fun c => !(c.field == .variance || c.field == .earned_value))).map
          (validateErrors s)).flatten ≠ [] :=
      flatten_ne_nil_of_mem (List.mem_map.mpr ⟨c, hc, rfl⟩) hne
    rw [if_neg (by simpa using hfl)]
    exact ⟨_, rfl, hfl⟩
  · intro now s cs hval
    exact apply_changes_ok now rfl hval
  · intro now s cs i hmem
    have hc : (⟨i, .percent_complete, 150⟩ : Change) ∈ cs.filter
        (fun c => !(c.field == .variance || c.field == .earned_value)) := by
      rw [List.mem_filter]
      exact ⟨hmem, rfl⟩
    have hne : validateErrors s ⟨i, .percent_complete, 150⟩ ≠ [] := by
      intro hcon
      have := h150 s i
      rw [hcon] at this
      cases this
    unfold apply_changes
    dsimp only
    have hfl : ((cs.filter
        (fun c => !(c.field == .variance || c.field == .earned_value))).map
          (validateErrors s)).flatten ≠ [] :=
      flatten_ne_nil_of_mem (List.mem_map.mpr ⟨_, hc, rfl⟩) hne
    rw [if_neg (by simpa using hfl)]
    refine ⟨_, rfl, ?_⟩
    rw [List.mem_flatten]
    exact ⟨validateErrors s ⟨i, .percent_complete, 150⟩,
      List.mem_map.mpr ⟨_, hc, rfl⟩, h150 s i⟩

/-- C6 counterexample: a change set proposing earned_value = 999 (a
non-editable derived field, which validation would reject) together with
work_hours = 42 *succeeds*: the earned_value change is silently dropped, the
work_hours change is written — so not every proposed change passed the full
validation set, yet no validation error was returned and a field was
written; the claimed all-or-nothing disjunction fails. -/
theorem c6_counterexample :
    validateErrors c6Store ⟨1, .earned_value, 999⟩ = ["not editable"]
    ∧ ∃ s', apply_changes 0 c6Store
        [⟨1, .earned_value, 999⟩, ⟨1, .work_hours, 42⟩] = .ok s'
      ∧ (getTask s' 1).map Task.work_hours = some 42
      ∧ (getTask s' 1).map Task.earned_value = some 0
      ∧ (0 : ℚ) ≠ 999 := by
  constructor
  · rfl
  · have hf : ([⟨1, .earned_value, 999⟩, ⟨1, .work_hours, 42⟩] : List Change).filter
        (fun c => !(c.field == .variance || c.field == .earned_value))
        = [⟨1, .work_hours, 42⟩] := rfl
    have hval : ∀ c ∈ ([⟨1, .work_hours, 42⟩] : List Change),
        validateErrors c6Store c = [] := by
      intro c hc
      rcases List.mem_singleton.mp hc with rfl
      exact @validateErrors_work_hours c6Store 1 42 c6Task rfl (by norm_num)
    have hap := apply_changes_ok 0 hf hval
    have hdd : firstDedup (([⟨1, .work_hours, 42⟩] : List Change).map Change.id)
        = [1] := by
      simp [firstDedup]
    have htu : taskUpdatesFor ([⟨1, .work_hours, 42⟩] : List Change) 1
        = { work_hours := some 42 } := by
      simp [taskUpdatesFor, setChange, List.filter]
    rw [hdd, List.foldl_cons, List.foldl_nil, htu] at hap
    have hget := @getTask_update_task 0 c6Store 1
      ({ work_hours := some 42 } : Updates) c6Task rfl
      (by simp [Updates.isEmpty])
      (by intro p hp; rw [applyUpdates_parent] at hp; simp [c6Task, T0] at hp)
    refine ⟨_, hap, ?_, ?_, by norm_num⟩
    · rw [hget, Option.map_some', applyUpdates_work_hours]
      rfl
    · rw [hget, Option.map_some']
      show some (round1 (c6Task.baseline_hours * (c6Task.percent_complete / 100)))
        = some 0
      norm_num [c6Task, T0, round1, rhe]

/-- Witness for the amended C6: the concrete set [percent_complete := 150]
is rejected with the range error. -/
theorem c6_amended_witness :
    ∃ errs, apply_changes 0 c6Store [⟨1, .percent_complete, 150⟩] = .error errs
      ∧ "percent_complete must be <= 100" ∈ errs :=
  c6_amended.2.2.2 0 c6Store [⟨1, .percent_complete, 150⟩] 1
    (List.mem_singleton.mpr rfl)

/-! ### C9: idempotence of re-applying a change set -/

theorem getD_getD {α : Type} (o : Option α) (a : α) :
    o.getD (o.getD a) = o.getD a := by
  cases o <;> rfl

theorem applyUpdates_start (now : ℕ) (t : Task) (u : Updates) :
    (applyUpdates now t u).start_date =
      match u.start_date with
      | some d => some d
      | none => t.start_date := rfl

/-- Re-running `applyUpdates` with the same update dict reproduces the same
row, provided the dict does not introduce a start date the task lacked
(otherwise the second run recomputes the finish date the first skipped). -/
theorem applyUpdates_idem (now : ℕ) (t : Task) (u : Updates)
    (hstart : u.start_date = none ∨ t.start_date.isSome = true) :
    applyUpdates now (applyUpdates now t u) u = applyUpdates now t u := by
  apply Task.ext
  case id => rfl
  case task => exact getD_getD u.task t.task
  case resource => exact getD_getD u.resource t.resource
  case work_hours => exact getD_getD u.work_hours t.work_hours
  case baseline_hours => exact getD_getD u.baseline_hours t.baseline_hours
  case hours_completed =>
    show round1 ((u.work_hours.getD (u.work_hours.getD t.work_hours)) *
        ((u.percent_complete.getD (u.percent_complete.getD t.percent_complete)) / 100))
      = _
    rw [getD_getD, getD_getD]
    rfl
  case hours_remaining =>
    show round1 ((u.work_hours.getD (u.work_hours.getD t.work_hours)) *
        (1 - (u.percent_complete.getD (u.percent_complete.getD t.percent_complete)) / 100))
      = _
    rw [getD_getD, getD_getD]
    rfl
  case earned_value =>
    show round1 ((u.baseline_hours.getD (u.baseline_hours.getD t.baseline_hours)) *
        ((u.percent_complete.getD (u.percent_complete.getD t.percent_complete)) / 100))
      = _
    rw [getD_getD, getD_getD]
    rfl
  case dev_hours => exact getD_getD u.dev_hours t.dev_hours
  case dev_percent => exact getD_getD u.dev_percent t.dev_percent
  case test_hours => exact getD_getD u.test_hours t.test_hours
  case test_percent => exact getD_getD u.test_percent t.test_percent
  case review_hours => exact getD_getD u.review_hours t.review_hours
  case review_percent => exact getD_getD u.review_percent t.review_percent
  case percent_complete => exact getD_getD u.percent_complete t.percent_complete
  case current_phase => exact getD_getD u.current_phase t.current_phase
  case task_type => exact getD_getD u.task_type t.task_type
  case start_date =>
    rw [applyUpdates_start, applyUpdates_start]
    cases u.start_date <;> rfl
  case parent_task =>
    show (match u.parent_task with
        | some p => some p
        | none => (applyUpdates now t u).parent_task) = _
    cases hup : u.parent_task
    · rfl
    · rw [applyUpdates_parent, hup]
  case finish_date =>
    rw [applyUpdates_finish, applyUpdates_finish, applyUpdates_work_hours,
      applyUpdates_percent, applyUpdates_start, getD_getD, getD_getD]
    by_cases hcnd : ((u.percent_complete.isSome || u.work_hours.isSome)
        && u.finish_date.isNone) = true
    · rw [if_pos hcnd, if_pos hcnd]
      cases hus : u.start_date with
      | some d =>
        have hsome : t.start_date.isSome = true := by
          rcases hstart with h | h
          · rw [hus] at h
            cases h
          · exact h
        by_cases hhr : 0 < (u.work_hours.getD t.work_hours) *
            (1 - (u.percent_complete.getD t.percent_complete) / 100)
        · rw [if_pos ⟨hhr, rfl⟩, if_pos ⟨hhr, hsome⟩]
        · have hinner : ¬(0 < (u.work_hours.getD t.work_hours) *
              (1 - (u.percent_complete.getD t.percent_complete) / 100)
            ∧ t.start_date.isSome = true) := fun hcon => hhr hcon.1
          rw [if_neg (fun hcon => hhr hcon.1), if_neg hinner]
      | none =>
        by_cases hinner : 0 < (u.work_hours.getD t.work_hours) *
            (1 - (u.percent_complete.getD t.percent_complete) / 100)
          ∧ t.start_date.isSome = true
        · rw [if_pos hinner, if_pos hinner]
        · rw [if_neg hinner, if_neg hinner]
    · rw [if_neg hcnd, if_neg hcnd]
      cases hf : u.finish_date with
      | some f => rfl
      | none => rfl

theorem writeTask_self {s : Store} {i : ℕ} {t' : Task}
    (h : ∀ x ∈ s, x.id = i → x = t') : writeTask s i t' = s := by
  unfold writeTask
  induction s with
  | nil => rfl
  | cons a as ih =>
    rw [List.map_cons]
    congr 1
    · by_cases ha : a.id = i
      · rw [if_pos (by simpa using ha)]
        exact (h a (List.mem_cons_self a as) ha).symm
      · rw [if_neg (by simpa using ha)]
    · exact ih (fun x hx hxi => h x (List.mem_cons_of_mem _ hx) hxi)

theorem aggRowOf_parent (subs : List Task) (x : Task) :
    (aggRowOf subs x).parent_task = x.parent_task := rfl

theorem aggRowOf_task (subs : List Task) (x : Task) :
    (aggRowOf subs x).task = x.task := rfl

theorem aggRowOf_start (subs : List Task) (x : Task) :
    (aggRowOf subs x).start_date =
      match earliestDate (subs.filterMap Task.start_date) with
      | some e => some e
      | none => x.start_date := rfl

theorem aggRowOf_finish (subs : List Task) (x : Task) :
    (aggRowOf subs x).finish_date =
      match latestDate (subs.filterMap Task.finish_date) with
      | some f => some f
      | none => x.finish_date := rfl

theorem aggRowOf_idem (subs : List Task) (x : Task) :
    aggRowOf subs (aggRowOf subs x) = aggRowOf subs x := by
  apply Task.ext
  case start_date =>
    rw [aggRowOf_start, aggRowOf_start]
    cases earliestDate (List.filterMap Task.start_date subs) <;> rfl
  case finish_date =>
    rw [aggRowOf_finish, aggRowOf_finish]
    cases latestDate (List.filterMap Task.finish_date subs) <;> rfl
  all_goals rfl

theorem subtasksOf_map_agg {s0 : Store} {p : String} {subs : List Task}
    (h : ∀ x ∈ s0, x.task = p → x.parent_task ≠ some p) :
    subtasksOf (List.map
      (fun x => if x.task == p then aggRowOf subs x else x) s0) p
      = subtasksOf s0 p := by
  unfold subtasksOf
  induction s0 with
  | nil => rfl
  | cons a as ih =>
    rw [List.map_cons, List.filter_cons, List.filter_cons]
    have hpp : (if a.task == p then aggRowOf subs a else a).parent_task
        = a.parent_task := by
      by_cases ha : a.task = p
      · rw [if_pos (by simpa using ha), aggRowOf_parent]
      · rw [if_neg (by simpa using ha)]
    rw [hpp]
    have htail := ih (fun x hx => h x (List.mem_cons_of_mem _ hx))
    by_cases hm : (a.parent_task == some p) = true
    · rw [if_pos hm, if_pos hm]
      have hga : (if a.task == p then aggRowOf subs a else a) = a := by
        by_cases ha : a.task = p
        · exact absurd (by simpa using hm)
            (h a (List.mem_cons_self a as) ha)
        · rw [if_neg (by simpa using ha)]
      rw [hga, htail]
    · rw [if_neg hm, if_neg hm]
      exact htail

/-- Every row carrying the updated id in the store `update_task` returns is
exactly the recomputed row (the parent re-aggregation never rewrites it when
the row is not named after its own parent). -/
theorem update_task_rows_id {now : ℕ} {s : Store} {i : ℕ} {u : Updates} {t : Task}
    (ht : getTask s i = some t) (hemp : ¬u.isEmpty = true)
    (hpar : ∀ p, (applyUpdates now t u).parent_task = some p →
      (applyUpdates now t u).task ≠ p) :
    ∀ x ∈ update_task now s i u, x.id = i → x = applyUpdates now t u := by
  unfold update_task
  rw [if_neg hemp, ht]
  dsimp only
  cases hp : (applyUpdates now t u).parent_task with
  | none =>
    intro x hx hxi
    unfold writeTask at hx
    obtain ⟨y, hy, rfl⟩ := List.mem_map.mp hx
    by_cases hyi : (y.id == i) = true
    · rw [if_pos hyi]
    · exfalso
      rw [if_neg hyi] at hxi
      exact hyi (by simpa using hxi)
  | some p =>
    intro x hx hxi
    unfold updateParentTotals at hx
    dsimp only at hx
    by_cases hsubE :
        (subtasksOf (writeTask s i (applyUpdates now t u)) p).isEmpty = true
    · rw [if_pos hsubE] at hx
      unfold writeTask at hx
      obtain ⟨y, hy, rfl⟩ := List.mem_map.mp hx
      by_cases hyi : (y.id == i) = true
      · rw [if_pos hyi]
      · exfalso
        rw [if_neg hyi] at hxi
        exact hyi (by simpa using hxi)
    · rw [if_neg hsubE] at hx
      obtain ⟨z, hz, rfl⟩ := List.mem_map.mp hx
      unfold writeTask at hz
      obtain ⟨y, hy, rfl⟩ := List.mem_map.mp hz
      by_cases hyi : (y.id == i) = true
      · rw [if_pos hyi]
        rw [if_neg (by simpa using hpar p hp)]
      · exfalso
        rw [if_neg hyi] at hxi
        have hyid : y.id = i := by
          by_cases hyp : (y.task == p) = true
          · rw [if_pos hyp] at hxi
            exact hxi
          · rw [if_neg hyp] at hxi
            exact hxi
        exact hyi (by simpa using hyid)

theorem updateParentTotals_idem {s0 : Store} {p : String}
    (h : ∀ x ∈ s0, x.task = p → x.parent_task ≠ some p) :
    updateParentTotals (updateParentTotals s0 p) p = updateParentTotals s0 p := by
  by_cases hsub : (subtasksOf s0 p).isEmpty = true
  · have h1 : updateParentTotals s0 p = s0 := by
      unfold updateParentTotals
      rw [if_pos hsub]
    rw [h1, h1]
  · have h1 : updateParentTotals s0 p
        = List.map (fun x => if x.task == p then
            aggRowOf (subtasksOf s0 p) x else x) s0 := by
      unfold updateParentTotals
      rw [if_neg hsub]
    have hsubs : subtasksOf (updateParentTotals s0 p) p = subtasksOf s0 p := by
      rw [h1]
      exact subtasksOf_map_agg h
    have hUPT : updateParentTotals (updateParentTotals s0 p) p
        = if (subtasksOf (updateParentTotals s0 p) p).isEmpty
            then updateParentTotals s0 p
          else List.map (fun x => if x.task == p then
              aggRowOf (subtasksOf (updateParentTotals s0 p) p) x else x)
            (updateParentTotals s0 p) := rfl
    rw [hUPT, hsubs, if_neg hsub, h1, List.map_map]
    apply List.map_congr_left
    intro x hx
    simp only [Function.comp_apply]
    by_cases hxp : (x.task == p) = true
    · rw [if_pos hxp, aggRowOf_task, if_pos hxp]
      exact aggRowOf_idem _ _
    · rw [if_neg hxp, if_neg hxp]

/-- C9 (amended): applying the same update dict to a task twice yields the
same store as applying it once, PROVIDED the dict does not introduce a
start_date the task previously lacked (and no row is its own parent, so the
parent re-aggregation is well behaved).  Without that proviso the second
application recomputes the finish date that the first skipped — see the
counterexample. -/
theorem c9_amended (now : ℕ) (s : Store) (i : ℕ) (u : Updates) (t : Task)
    (ht : getTask s i = some t)
    (hstart : u.start_date = none ∨ t.start_date.isSome = true)
    (hsp : ∀ x ∈ s, x.parent_task ≠ some x.task)
    (hne' : (applyUpdates now t u).parent_task ≠ some (applyUpdates now t u).task) :
    update_task now (update_task now s i u) i u = update_task now s i u := by
  by_cases hemp : u.isEmpty = true
  · have hid : ∀ s0 : Store, update_task now s0 i u = s0 := by
      intro s0
      unfold update_task
      rw [if_pos hemp]
    rw [hid, hid]
  · have hpar : ∀ p, (applyUpdates now t u).parent_task = some p →
        (applyUpdates now t u).task ≠ p := by
      intro p hp heq
      exact hne' (by rw [hp, heq])
    have ht' : getTask (update_task now s i u) i = some (applyUpdates now t u) :=
      getTask_update_task ht hemp hpar
    have hrows : ∀ x ∈ update_task now s i u, x.id = i → x = applyUpdates now t u :=
      update_task_rows_id ht hemp hpar
    have hwrite : writeTask (update_task now s i u) i (applyUpdates now t u)
        = update_task now s i u := writeTask_self hrows
    have hstep : update_task now (update_task now s i u) i u
        = (if u.isEmpty then update_task now s i u else
          match getTask (update_task now s i u) i with
          | none => update_task now s i u
          | some t1 =>
            let t1' := applyUpdates now t1 u
            let s1' := writeTask (update_task now s i u) i t1'
            match t1'.parent_task with
            | some p => updateParentTotals s1' p
            | none => s1') := rfl
    rw [hstep, if_neg hemp, ht']
    dsimp only
    rw [applyUpdates_idem now t u hstart, hwrite]
    cases hp : (applyUpdates now t u).parent_task with
    | none => rfl
    | some p =>
      have hs1 : update_task now s i u
          = updateParentTotals (writeTask s i (applyUpdates now t u)) p := by
        show (if u.isEmpty then s else
          match getTask s i with
          | none => s
          | some t0 =>
            let t0' := applyUpdates now t0 u
            let s0' := writeTask s i t0'
            match t0'.parent_task with
            | some q => updateParentTotals s0' q
            | none => s0') = _
        rw [if_neg hemp, ht]
        dsimp only
        rw [hp]
      rw [hs1]
      apply updateParentTotals_idem
      intro x hx hxt
      unfold writeTask at hx
      obtain ⟨y, hy, rfl⟩ := List.mem_map.mp hx
      by_cases hyi : (y.id == i) = true
      · rw [if_pos hyi] at hxt ⊢
        rw [← hxt]
        exact hne'
      · rw [if_neg hyi] at hxt ⊢
        intro hcon
        exact hsp y hy (by rw [hcon, hxt])

/-- C9 counterexample: the claim as stated (unconditional idempotence) is
false.  The update dict `{work_hours: 10, start_date: day 3}` applied to a
task with no stored start date leaves `finish_date` at day 100 on the first
application (the recompute guard reads the PRE-update row, whose start_date
is NULL); the second application sees the start date the first one wrote and
recomputes `finish_date` to day 2, so the two stores differ. -/
theorem c9_counterexample :
    (getTask (update_task 0 c9Store 1 c9U) 1).map Task.finish_date
      = some (some 100)
    ∧ (getTask (update_task 0 (update_task 0 c9Store 1 c9U) 1 c9U) 1).map
        Task.finish_date = some (some 2)
    ∧ update_task 0 (update_task 0 c9Store 1 c9U) 1 c9U
        ≠ update_task 0 c9Store 1 c9U := by
  have hrc : recalcFinish 0 10 = 2 := by
    unfold recalcFinish
    have h0 : max ((10 : ℚ) / 8) 0 = 5/4 := by norm_num
    have h1 : (⌈(5 : ℚ)/4⌉ : ℤ) = 2 := by
      rw [Int.ceil_eq_iff]
      constructor <;> norm_num
    rw [h0, h1]
    norm_num [projectFinish, stepWeekday]
  have hA : (getTask (update_task 0 c9Store 1 c9U) 1).map Task.finish_date
      = some (some 100) := by
    norm_num [c9Store, c9Task, c9U, T0, update_task, Updates.isEmpty,
      applyUpdates, getTask, writeTask, updateParentTotals, subtasksOf,
      rhe, round1]
  have hB : (getTask (update_task 0 (update_task 0 c9Store 1 c9U) 1 c9U) 1).map
      Task.finish_date = some (some 2) := by
    norm_num [c9Store, c9Task, c9U, T0, update_task, Updates.isEmpty,
      applyUpdates, getTask, writeTask, updateParentTotals, subtasksOf,
      rhe, round1, hrc]
  refine ⟨hA, hB, ?_⟩
  intro heq
  rw [heq, hA] at hB
  exact absurd hB (by decide)

/-- Witness for the amended C9 at concrete inputs. -/
theorem c9_amended_witness :
    update_task 5 (update_task 5 c9WStore 1 c9WU) 1 c9WU
      = update_task 5 c9WStore 1 c9WU :=
  c9_amended 5 c9WStore 1 c9WU c9WTask rfl (Or.inr rfl)
    (by
      intro x hx
      have hx' : x = c9WTask := by simpa [c9WStore] using hx
      subst hx'
      simp [c9WTask, T0])
    (by
      rw [applyUpdates_parent]
      simp [c9WU, c9WTask, T0])

end KPI

